import Mathlib

/-!
# myzone.golang: addressed entity directory, publisher runtime and node helpers

A shallow embedding of the parts of the repository that the specification
talks about:

* `lib.DomainCollection` (address codec, directory, discovery ingestion).  Its
  implementation file is not among the sources, only its test
  `lib/DomainCollection_test.go` is, so these definitions are modelled from the
  specification text (sections 3, 4.1, 4.2 and 4.3).
* `publisher.Publisher` (`publisher/Publisher.go`): `NewPublisher`,
  `SetPollInterval`, `Stop` and the body of `heartbeatLoop`.
* `nodes.Node` (`nodes/Node.go`): `GetConfigValue`, `SetNodeAttr`,
  `SetNodeStatus`, `SetNodeConfigValues`, `SetErrorState` and `Clone`.

Go strings are Lean strings, Go `int` is `Int` (no arithmetic here comes near
the 64 bit range), a nil pointer or nil map is `none`, and a method with a
pointer receiver is a function that returns the receiver next to its result.
-/

namespace MyZone

/-! ## Address codec (spec 3 and 4.1) -/

/-- Modelled from the spec: the address codec of `lib` is missing from the
sources.  An address is an ordered sequence of string segments. -/
abbrev Address := List String

/-- Modelled from the spec: splitting on the segment separator `/`
(section 4.1, the missing `lib` address codec).  Like Go's `strings.Split`
the empty text gives one empty segment. -/
def splitSegments : List Char → List (List Char)
  | [] => [[]]
  | c :: cs =>
    if c = '/' then [] :: splitSegments cs
    else
      match splitSegments cs with
      | [] => [[c]]
      | s :: ss => (c :: s) :: ss

/-- Modelled from the spec: the segments of a raw address text (the missing
`lib` address codec). -/
def segments (raw : String) : Address :=
  (splitSegments raw.data).map String.mk

/-- Error kinds of section 7 that the discovery path reports. -/
inductive DiscoveryError where
  | AddressError
  | UnknownSignerError
  | SignatureError
  | DecodeError
  deriving DecidableEq, Repr

/-- Modelled from the spec: `Canonicalize(raw)` of the missing `lib` address
codec: splits on the segment separator and fails with `AddressError` if there
are fewer than 3 segments. -/
def Canonicalize (raw : String) : Except DiscoveryError Address :=
  let segs := segments raw
  if segs.length < 3 then Except.error DiscoveryError.AddressError else Except.ok segs

/-- Modelled from the spec: the reserved marker of a message-type qualifier
(the missing `lib` address codec): a segment with a leading `$`, such as
`$node`, `$input`, `$set`, `$configure`. -/
def isQualifier (seg : String) : Bool :=
  seg.data.head? = some '$'

/-- Modelled from the spec: `NodeKey(address)` of the missing `lib` address
codec: strips a trailing qualifier and everything after nodeID, or after
instanceID when nodeType/instanceID are present.  The first three segments are
always identity segments, so a qualifier is only looked for behind them. -/
def NodeKey (address : Address) : Address :=
  let body :=
    match address.getLast? with
    | some last => if 3 < address.length ∧ isQualifier last = true then address.dropLast
                   else address
    | none => address
  if 5 ≤ body.length then body.take 5 else body.take 3

/-- A well-formed entity address in the sense of section 3:
zone/publisherID/nodeID, optionally followed by nodeType/instanceID, where no
identity segment carries the reserved qualifier marker. -/
def WellFormedNodeAddress (a : String) : Prop :=
  ((segments a).length = 3 ∨ (segments a).length = 5) ∧
    ∀ s ∈ segments a, isQualifier s = false

/-- Modelled from the spec: `HasPrefix(address, prefixAddress)` of the missing
`lib` address codec: a segment-wise prefix test, not a string prefix test. -/
def HasPrefix (address pfxAddress : Address) : Bool :=
  pfxAddress.isPrefixOf address

/-! ## Entity directory (spec 4.2) -/

/-- Modelled from the spec: the `DomainCollection` of the missing
`lib/DomainCollection.go`: entries keyed by the canonical node-identity part
of the address, the update counter, and the public key resolver it holds by
reference.  `T` is the element type declared at construction. -/
structure DomainCollection (K T : Type) where
  items : List (Address × T)
  updateCount : Nat
  getPublicKey : String → Option K

/-- Modelled from the spec: `NewDomainCollection` of the missing
`lib/DomainCollection.go`: an empty directory with its key resolver. -/
def NewDomainCollection {K T : Type} (getPublicKey : String → Option K) :
    DomainCollection K T :=
  { items := [], updateCount := 0, getPublicKey := getPublicKey }

/-- Lookup of a key in the entry list (a Go map read). -/
def lookupKey {T : Type} (k : Address) : List (Address × T) → Option T
  | [] => none
  | (k', e) :: rest => if k' = k then some e else lookupKey k rest

/-- Store or replace the entry of a key (a Go map write). -/
def storeKey {T : Type} (k : Address) (e : T) : List (Address × T) → List (Address × T)
  | [] => [(k, e)]
  | (k', e') :: rest => if k' = k then (k, e) :: rest else (k', e') :: storeKey k e rest

/-- Delete the entry of a key (Go's `delete` on a map). -/
def deleteKey {T : Type} (k : Address) : List (Address × T) → List (Address × T)
  | [] => []
  | (k', e') :: rest => if k' = k then deleteKey k rest else (k', e') :: deleteKey k rest

/-- Modelled from the spec: `Update(address, entity)` of the missing
`lib/DomainCollection.go`: canonicalizes the address, stores or replaces the
entry keyed by the node-identity portion and marks the update counter.  The
spec defines it on well-formed addresses only; on an address that does not
canonicalize nothing is stored here. -/
def DomainCollection.Update {K T : Type} (c : DomainCollection K T) (address : String)
    (entity : T) : DomainCollection K T :=
  match Canonicalize address with
  | Except.error _ => c
  | Except.ok segs =>
    { c with items := storeKey (NodeKey segs) entity c.items
             updateCount := c.updateCount + 1 }

/-- Modelled from the spec: `GetByAddress(address)` of the missing
`lib/DomainCollection.go`: the lookup ignores qualifiers; a malformed address
gives nil. -/
def DomainCollection.GetByAddress {K T : Type} (c : DomainCollection K T)
    (address : String) : Option T :=
  match Canonicalize address with
  | Except.error _ => none
  | Except.ok segs => lookupKey (NodeKey segs) c.items

/-- Modelled from the spec: `GetAll(&out)` of the missing
`lib/DomainCollection.go`: every stored entity. -/
def DomainCollection.GetAll {K T : Type} (c : DomainCollection K T) : List T :=
  c.items.map Prod.snd

/-- Modelled from the spec: `GetByAddressPrefix(prefix, &out)` of the missing
`lib/DomainCollection.go`: every stored entity whose address has `prefix` as a
segment-wise prefix; a malformed prefix (fewer than 3 segments) gives the
empty result, as for every `Get*`. -/
def DomainCollection.GetByAddressPrefix {K T : Type} (c : DomainCollection K T)
    (pfx : String) : List T :=
  match Canonicalize pfx with
  | Except.error _ => []
  | Except.ok segs => (c.items.filter (fun kv => HasPrefix kv.1 segs)).map Prod.snd

/-- Modelled from the spec: `Remove(address)` of the missing
`lib/DomainCollection.go`: deletes the node-identity-keyed entry; removing an
address without entry is a no-op. -/
def DomainCollection.Remove {K T : Type} (c : DomainCollection K T) (address : String) :
    DomainCollection K T :=
  match Canonicalize address with
  | Except.error _ => c
  | Except.ok segs => { c with items := deleteKey (NodeKey segs) c.items }

/-! ## Signed ingestion (spec 4.3) -/

/-- Modelled from the spec: the signature/key boundary of section 6, an
external service of the missing `messaging` package:
`Verify(signedEnvelope, publicKey) -> (payload, ok)` and the decoding of a
payload into the declared element type, guided by the target type hint. -/
structure SignatureService (K T : Type) where
  verify : String → K → Option String
  decode : T → String → Option T

/-- Modelled from the spec: `HandleDiscovery(address, rawMessage, hint)` of
the missing `lib/DomainCollection.go`, steps 1 to 5 of section 4.3.  The
result is the error value (nil is `none`) and the directory afterwards. -/
def DomainCollection.HandleDiscovery {K T : Type} (svc : SignatureService K T)
    (c : DomainCollection K T) (address rawMessage : String) (hint : T) :
    Option DiscoveryError × DomainCollection K T :=
  match Canonicalize address with
  | Except.error err => (some err, c)
  | Except.ok segs =>
    match c.getPublicKey (segs.getD 1 "") with
    | none => (some DiscoveryError.UnknownSignerError, c)
    | some key =>
      match svc.verify rawMessage key with
      | none => (some DiscoveryError.SignatureError, c)
      | some payload =>
        match svc.decode hint payload with
        | none => (some DiscoveryError.DecodeError, c)
        | some entity => (none, c.Update address entity)

/-- The four ways in which a discovery message is not admitted: the address
does not parse, the signer is unknown, the signature does not verify under the
signer's key, or the verified payload does not decode. -/
def DiscoveryFails {K T : Type} (svc : SignatureService K T) (c : DomainCollection K T)
    (address rawMessage : String) (hint : T) : Prop :=
  (segments address).length < 3 ∨
  c.getPublicKey ((segments address).getD 1 "") = none ∨
  (∃ key, c.getPublicKey ((segments address).getD 1 "") = some key ∧
    svc.verify rawMessage key = none) ∨
  (∃ key payload, c.getPublicKey ((segments address).getD 1 "") = some key ∧
    svc.verify rawMessage key = some payload ∧ svc.decode hint payload = none)

/-! ## Publisher runtime (`publisher/Publisher.go`) -/

/-- The constant `DefaultPollInterval` of `publisher/Publisher.go`. -/
def DefaultPollInterval : Int := 600

/-- The struct `PublisherConfig` of `publisher/Publisher.go`. -/
structure PublisherConfig where
  SaveDiscoveredPublishers : Bool
  SaveDiscoveredNodes : Bool
  CacheFolder : String
  ConfigFolder : String
  Domain : String
  PublisherID : String
  Loglevel : String
  Logfile : String
  DisableConfig : Bool
  DisableInput : Bool
  DisablePublishers : Bool
  SecuredDomain : Bool
  deriving DecidableEq, Repr

/-- Go's zero value `PublisherConfig{}`. -/
def PublisherConfig.zero : PublisherConfig :=
  { SaveDiscoveredPublishers := false, SaveDiscoveredNodes := false, CacheFolder := "",
    ConfigFolder := "", Domain := "", PublisherID := "", Loglevel := "", Logfile := "",
    DisableConfig := false, DisableInput := false, DisablePublishers := false,
    SecuredDomain := false }

/-- The struct `Publisher` of `publisher/Publisher.go`.  `M` is the messenger
(`messaging.IMessenger`), `H` the type of poll handlers and `S` stands for the
collaborator objects of the missing packages that the publisher points to
(domain and registered collections, receivers, identity, message signer).
The heartbeat channel and the mutex carry no data. -/
structure Publisher (M H S : Type) where
  config : PublisherConfig
  services : S
  isRunning : Bool
  messenger : M
  pollHandler : Option H
  pollCountdown : Int
  pollInterval : Int

/-- The run states of a publisher that `Publisher.go` publishes; the constants
are declared in the missing `types` package. -/
inductive PublisherRunState where
  | Connected
  | Disconnected
  | Lost
  deriving DecidableEq, Repr

/-- Outward actions of `Publisher.Stop`, in program order (log lines and the
mutex are left out). -/
inductive StopAction where
  | receiveMyIdentityUpdateStop
  | receiveDomainIdentitiesStop
  | receiveNodeConfigureStop
  | receiveSetNodeIDStop
  | awaitHeartbeatEnd
  | setPublisherStatus (status : PublisherRunState)
  | messengerDisconnect
  deriving DecidableEq, Repr

/-- Code of the repository and its dependencies that is not among the
sources, taken as parameters: the constants `types.LocalDomainID` and
`lib.DefaultConfigFolder`, the construction of the collaborator objects in
`NewPublisher` followed by `LoadRegisteredNodes`, the method
`Publisher.PublishUpdates`, `domainIdentities.UpdateCount` and
`domainIdentities.SaveIdentities`, and the call of a poll handler. -/
structure Collaborators (M H S : Type) where
  LocalDomainID : String
  DefaultConfigFolder : String
  newServices : PublisherConfig → M → S
  PublishUpdates : Publisher M H S → Publisher M H S
  identitiesUpdateCount : S → Nat
  SaveIdentities : S → S
  callPollHandler : H → Publisher M H S → Publisher M H S

/-- A collaborator that leaves the poll fields of the publisher alone. -/
def KeepsPollFields {M H S : Type} (f : Publisher M H S → Publisher M H S) : Prop :=
  ∀ p, (f p).pollCountdown = p.pollCountdown ∧ (f p).pollInterval = p.pollInterval ∧
    (f p).pollHandler = p.pollHandler

/-- A counter of handler calls kept in the collaborator state: every call of a
poll handler raises it by one and the other collaborators of the loop
(`PublishUpdates`, `SaveIdentities`) leave it as it is. -/
def CountsPollCalls {M H S : Type} (env : Collaborators M H S) (count : S → Nat) : Prop :=
  (∀ h p, count (env.callPollHandler h p).services = count p.services + 1) ∧
  (∀ p, count (env.PublishUpdates p).services = count p.services) ∧
  (∀ s, count (env.SaveIdentities s) = count s)

/-- The function `NewPublisher` of `publisher/Publisher.go`; a nil config or
messenger is `none`, and so is the nil result. -/
def NewPublisher {M H S : Type} (env : Collaborators M H S)
    (config : Option PublisherConfig) (messenger : Option M) : Option (Publisher M H S) :=
  match messenger with
  | none => none
  | some m =>
    let config1 := match config with
      | none => PublisherConfig.zero
      | some cfg => cfg
    let config2 := if config1.Domain = "" then { config1 with Domain := env.LocalDomainID }
                   else config1
    let config3 := if config2.ConfigFolder = "" then
                     { config2 with ConfigFolder := env.DefaultConfigFolder }
                   else config2
    some { config := config3
           services := env.newServices config3 m
           isRunning := false
           messenger := m
           pollHandler := none
           pollCountdown := 0
           pollInterval := DefaultPollInterval }

/-- The method `Publisher.SetPollInterval` of `publisher/Publisher.go`. -/
def Publisher.SetPollInterval {M H S : Type} (pub : Publisher M H S) (seconds : Int)
    (handler : Option H) : Publisher M H S :=
  let pub1 := if seconds > 0 then { pub with pollInterval := seconds }
              else { pub with pollInterval := DefaultPollInterval }
  { pub1 with pollHandler := handler }

/-- The method `Publisher.Stop` of `publisher/Publisher.go`, as seen from the
calling goroutine: the publisher afterwards and the outward actions taken.
The status publication and the disconnect come after the `if`/`else`, as in
the source. -/
def Publisher.Stop {M H S : Type} (pub : Publisher M H S) :
    Publisher M H S × List StopAction :=
  let (pub1, acts) :=
    if pub.isRunning then
      ({ pub with isRunning := false },
        [StopAction.receiveMyIdentityUpdateStop, StopAction.receiveDomainIdentitiesStop,
         StopAction.receiveNodeConfigureStop, StopAction.receiveSetNodeIDStop,
         StopAction.awaitHeartbeatEnd])
    else (pub, [])
  (pub1, acts ++ [StopAction.setPublisherStatus PublisherRunState.Disconnected,
                  StopAction.messengerDisconnect])

/-- The method `Publisher.SaveDomainPublishers` of `publisher/Publisher.go`:
it hands the identities to `SaveIdentities` and drops the error. -/
def Publisher.SaveDomainPublishers {M H S : Type} (env : Collaborators M H S)
    (pub : Publisher M H S) : Publisher M H S :=
  { pub with services := env.SaveIdentities pub.services }

/-- The poll step in the loop of `Publisher.heartbeatLoop`: when the countdown
has run out and a handler is set, the handler is called and the countdown is
reset to the poll interval.  The result is the publisher afterwards and
whether the handler was invoked. -/
def heartbeatPoll {M H S : Type} (env : Collaborators M H S) (pub : Publisher M H S) :
    Publisher M H S × Bool :=
  match pub.pollHandler with
  | some h =>
    if pub.pollCountdown ≤ 0 then
      let pub1 := env.callPollHandler h pub
      ({ pub1 with pollCountdown := pub1.pollInterval }, true)
    else (pub, false)
  | none => (pub, false)

/-- One pass through the body of the loop in `Publisher.heartbeatLoop`
(after the one second sleep, before the running flag is read): the publisher
afterwards and whether the poll handler was invoked. -/
def heartbeatTick {M H S : Type} (env : Collaborators M H S) (pub : Publisher M H S) :
    Publisher M H S × Bool :=
  let pub1 := env.PublishUpdates pub
  let pub2 :=
    if pub1.config.SaveDiscoveredPublishers ∧ env.identitiesUpdateCount pub1.services > 0 then
      pub1.SaveDomainPublishers env
    else pub1
  let polled := heartbeatPoll env pub2
  ({ polled.1 with pollCountdown := polled.1.pollCountdown - 1 }, polled.2)

/-- The publisher after `n` passes through the loop body. -/
def heartbeatRun {M H S : Type} (env : Collaborators M H S) :
    Nat → Publisher M H S → Publisher M H S
  | 0, pub => pub
  | n + 1, pub => (heartbeatTick env (heartbeatRun env n pub)).1

/-- Whether the poll handler is invoked on tick `k` (ticks count from 1). -/
def pollFiredOnTick {M H S : Type} (env : Collaborators M H S) (pub : Publisher M H S)
    (k : Nat) : Bool :=
  (heartbeatTick env (heartbeatRun env (k - 1) pub)).2

/-! ## Nodes (`nodes/Node.go`) -/

/-- A Go map with string keys: `none` is the nil map, otherwise the entries. -/
abbrev GoMap (V : Type) := Option (List (String × V))

/-- Reading a Go map, `v, ok := m[k]`: `none` when the key has no entry (also
for the nil map). -/
def GoMap.lookup {V : Type} (m : GoMap V) (k : String) : Option V :=
  match m with
  | none => none
  | some entries => (entries.find? (fun kv => kv.1 = k)).map Prod.snd

/-- Modelled from the spec: the type declaration `messaging.ConfigAttr` is
missing from the sources; these are the fields that `nodes/Node.go` names. -/
structure ConfigAttr where
  ID : String
  DataType : String
  Description : String
  Default : String
  Value : String
  deriving DecidableEq, Repr

/-- Modelled from the spec: the type declaration
`messaging.NodeDiscoveryMessage`, embedded in `nodes.Node`, is missing from the
sources; these are the fields that `nodes/Node.go` names (`Type` is written
`NodeType`). -/
structure Node where
  Address : String
  Attr : GoMap String
  Config : GoMap ConfigAttr
  ID : String
  PublisherID : String
  RunState : String
  Status : GoMap String
  NodeType : String
  Zone : String
  deriving DecidableEq, Repr

/-- The method `Node.GetConfigValue` of `nodes/Node.go`: the pair
`(value, configExists)` and the node afterwards. -/
def Node.GetConfigValue (node : Node) (attrName : String) : (String × Bool) × Node :=
  match node.Config.lookup attrName with
  | none => (("", false), node)
  | some config =>
    if config.Value = "" then ((config.Default, true), node)
    else ((config.Value, true), node)

/-- The entries of a Go map, in the order in which `range` visits them (the
nil map has none).  Go leaves the order open; every order of the same entries
is a list of this kind. -/
def GoMap.entries {V : Type} (m : GoMap V) : List (String × V) :=
  match m with
  | none => []
  | some entries => entries

/-- A Go map holds one entry per key. -/
def GoMap.KeysUnique {V : Type} (m : GoMap V) : Prop :=
  (m.entries.map Prod.fst).Nodup

/-- Whether a map given by its entries holds one entry per key can be computed. -/
instance GoMap.decidableKeysUnique {V : Type} (m : GoMap V) : Decidable m.KeysUnique :=
  inferInstanceAs (Decidable (m.entries.map Prod.fst).Nodup)

/-- Store or replace the entry of a key in the entries of a map. -/
def storeEntry {V : Type} (k : String) (v : V) : List (String × V) → List (String × V)
  | [] => [(k, v)]
  | (k', v') :: rest => if k' = k then (k, v) :: rest else (k', v') :: storeEntry k v rest

/-- Writing a Go map, `m[k] = v`; `none` is the run-time panic of an
assignment to an entry of the nil map. -/
def GoMap.store {V : Type} (m : GoMap V) (k : String) (v : V) : Option (GoMap V) :=
  match m with
  | none => none
  | some entries => some (some (storeEntry k v entries))

/-- The loop that `Node.SetNodeAttr` and `Node.SetNodeStatus` of
`nodes/Node.go` run on their map: for each pair of the parameters, if the map
reads another value (a missing entry reads as the empty string) the value is
stored and `changed` is set.  `none` is the panic of a write to the nil map. -/
def setStringValues : List (String × String) → Bool → GoMap String →
    Option (Bool × GoMap String)
  | [], changed, m => some (changed, m)
  | (key, value) :: rest, changed, m =>
    if (m.lookup key).getD "" ≠ value then
      match m.store key value with
      | none => none
      | some m1 => setStringValues rest true m1
    else setStringValues rest changed m

/-- The method `Node.SetNodeAttr` of `nodes/Node.go`: the flag `changed` and
the node afterwards; `none` is a panic. -/
def Node.SetNodeAttr (node : Node) (attrParams : GoMap String) : Option (Bool × Node) :=
  match setStringValues attrParams.entries false node.Attr with
  | none => none
  | some (changed, attr) => some (changed, { node with Attr := attr })

/-- The method `Node.SetNodeStatus` of `nodes/Node.go`: the flag `changed` and
the node afterwards; `none` is a panic. -/
def Node.SetNodeStatus (node : Node) (attrParams : GoMap String) : Option (Bool × Node) :=
  match setStringValues attrParams.entries false node.Status with
  | none => none
  | some (changed, status) => some (changed, { node with Status := status })

/-- Go's zero value `messaging.ConfigAttr{}`. -/
def ConfigAttr.zero : ConfigAttr :=
  { ID := "", DataType := "", Description := "", Default := "", Value := "" }

/-- The loop of `Node.SetNodeConfigValues` of `nodes/Node.go` on the Config
map: a key without entry gets `ConfigAttr{Value: newValue}`, an entry with
another value gets its `Value` replaced; both set `changed`. -/
def setConfigValues : List (String × String) → Bool → GoMap ConfigAttr →
    Option (Bool × GoMap ConfigAttr)
  | [], changed, m => some (changed, m)
  | (key, newValue) :: rest, changed, m =>
    match m.lookup key with
    | none =>
      match m.store key { ConfigAttr.zero with Value := newValue } with
      | none => none
      | some m1 => setConfigValues rest true m1
    | some config =>
      if config.Value ≠ newValue then
        match m.store key { config with Value := newValue } with
        | none => none
        | some m1 => setConfigValues rest true m1
      else setConfigValues rest changed m

/-- The method `Node.SetNodeConfigValues` of `nodes/Node.go`: the flag
`changed` and the node afterwards; `none` is a panic. -/
def Node.SetNodeConfigValues (node : Node) (params : GoMap String) : Option (Bool × Node) :=
  match setConfigValues params.entries false node.Config with
  | none => none
  | some (changed, config) => some (changed, { node with Config := config })

/-- The method `Node.SetErrorState` of `nodes/Node.go`.  The constants
`messaging.NodeStatusLastError` and `messaging.NodeRunStateError` are declared
in the missing `messaging` package and are taken as parameters. -/
def Node.SetErrorState (NodeStatusLastError NodeRunStateError : String) (node : Node)
    (message : String) : Option (Bool × Node) :=
  match node.SetNodeStatus (some [(NodeStatusLastError, message)]) with
  | none => none
  | some (changed, node1) =>
    if node1.RunState ≠ NodeRunStateError then
      some (true, { node1 with RunState := NodeRunStateError })
    else some (changed, node1)

/-- What a call of `SetNodeAttr` or `SetNodeStatus` with `params` promises
about its map `before` and `after` the call and the returned flag: the map is
still there; the flag tells whether the map differs; every key of `params`
reads its requested value (a missing entry reads as the empty string); other
keys are as before; a key without entry whose requested value is empty is not
added; and without change the map is the same. -/
def SetValuesContract (params before after : GoMap String) (changed : Bool) : Prop :=
  after ≠ none ∧
  (changed = true ↔ ∃ k, after.lookup k ≠ before.lookup k) ∧
  (∀ k v, params.lookup k = some v → (after.lookup k).getD "" = v) ∧
  (∀ k, params.lookup k = none → after.lookup k = before.lookup k) ∧
  (∀ k, params.lookup k = some "" → before.lookup k = none → after.lookup k = none) ∧
  (changed = false → after = before)

/-- The entry that `SetNodeConfigValues` leaves for a key with requested value
`v`: the old entry with only `Value` replaced, or `ConfigAttr{Value: v}` when
there was none. -/
def ConfigAttr.withValue (old : Option ConfigAttr) (v : String) : ConfigAttr :=
  match old with
  | some config => { config with Value := v }
  | none => { ConfigAttr.zero with Value := v }

/-! ## Nodes and their maps in memory (`Node.Clone`)

A Go map value is a reference to a map object, so two `Node` structs can
share a map.  To speak about that, the three maps of a node are kept in a heap
of map objects and the struct holds references to them. -/

/-- The Go struct `Node` as it lies in memory: the scalar fields by value and,
for each of the maps, a reference to a map object (`none` is the nil map). -/
structure NodeStruct where
  Address : String
  Attr : Option Nat
  Config : Option Nat
  ID : String
  PublisherID : String
  RunState : String
  Status : Option Nat
  NodeType : String
  Zone : String
  deriving DecidableEq, Repr

/-- The map objects in memory, per map type; a reference is a position. -/
structure MapHeap where
  attrMaps : List (List (String × String))
  configMaps : List (List (String × ConfigAttr))
  statusMaps : List (List (String × String))
  deriving DecidableEq, Repr

/-- The map that a reference stands for. -/
def derefMap {V : Type} (maps : List (List (String × V))) (ref : Option Nat) : GoMap V :=
  match ref with
  | none => none
  | some r => maps[r]?

/-- The node that a struct shows when its maps are read from the heap. -/
def MapHeap.view (h : MapHeap) (n : NodeStruct) : Node :=
  { Address := n.Address
    Attr := derefMap h.attrMaps n.Attr
    Config := derefMap h.configMaps n.Config
    ID := n.ID
    PublisherID := n.PublisherID
    RunState := n.RunState
    Status := derefMap h.statusMaps n.Status
    NodeType := n.NodeType
    Zone := n.Zone }

/-- The references of a struct point to map objects of the heap. -/
def MapHeap.Holds (h : MapHeap) (n : NodeStruct) : Prop :=
  (∀ r, n.Attr = some r → r < h.attrMaps.length) ∧
  (∀ r, n.Config = some r → r < h.configMaps.length) ∧
  (∀ r, n.Status = some r → r < h.statusMaps.length)

/-- The copy loops of `Node.Clone`, `for key, value := range src { dst[key] =
value }` into a map fresh from `make`: the entries of the new map. -/
def copyMap {V : Type} (src : GoMap V) : List (String × V) :=
  src.entries.foldl (fun dst kv => storeEntry kv.1 kv.2 dst) []

/-- The method `Node.Clone` of `nodes/Node.go`: `newNode := *node` copies the
struct, then each of the three maps is replaced by a new map object filled
from the old one.  The result is the new struct and the heap afterwards. -/
def MapHeap.Clone (h : MapHeap) (node : NodeStruct) : NodeStruct × MapHeap :=
  let newNode := node
  let attr := copyMap (derefMap h.attrMaps node.Attr)
  let config := copyMap (derefMap h.configMaps node.Config)
  let status := copyMap (derefMap h.statusMaps node.Status)
  ({ newNode with Attr := some h.attrMaps.length
                  Config := some h.configMaps.length
                  Status := some h.statusMaps.length },
   { attrMaps := h.attrMaps ++ [attr]
     configMaps := h.configMaps ++ [config]
     statusMaps := h.statusMaps ++ [status] })

/-- Writing the entries of a map back to the map object of a reference. -/
def writeMap {V : Type} (maps : List (List (String × V))) (ref : Option Nat) (m : GoMap V) :
    List (List (String × V)) :=
  match ref, m with
  | some r, some entries => maps.set r entries
  | _, _ => maps

/-- A method of `*Node` run on a struct in memory: it reads the maps that the
struct refers to, and its writes go to those map objects and to the scalar
fields of the struct.  The result is the flag, the struct and the heap
afterwards; `none` is a panic. -/
def MapHeap.call (h : MapHeap) (n : NodeStruct) (method : Node → Option (Bool × Node)) :
    Option (Bool × NodeStruct × MapHeap) :=
  match method (h.view n) with
  | none => none
  | some (changed, node1) =>
    some (changed,
      { n with Address := node1.Address, ID := node1.ID, PublisherID := node1.PublisherID,
               RunState := node1.RunState, NodeType := node1.NodeType, Zone := node1.Zone },
      { attrMaps := writeMap h.attrMaps n.Attr node1.Attr
        configMaps := writeMap h.configMaps n.Config node1.Config
        statusMaps := writeMap h.statusMaps n.Status node1.Status })

/-- The method, run on the struct `c` in the heap `h`, returns; its result
shows in the view of `c`; and the struct `n` still shows what it showed in the
heap `h0`. -/
def LeavesAlone (h0 : MapHeap) (n : NodeStruct) (h : MapHeap) (c : NodeStruct)
    (method : Node → Option (Bool × Node)) : Prop :=
  ∃ changed node1 c1 h1,
    method (h.view c) = some (changed, node1) ∧
    h.call c method = some (changed, c1, h1) ∧
    h1.view c1 = node1 ∧
    h1.view n = h0.view n

/-! ## Example data -/

/-- A heap for examples with the Attr and Status maps of one node. -/
def exampleHeap : MapHeap :=
  { attrMaps := [[("name", "kitchen sensor")]], configMaps := [],
    statusMaps := [[("lastError", "")]] }

/-- A struct for examples: its Config map is nil. -/
def exampleStruct : NodeStruct :=
  { Address := "local/pub1/node1/$node", Attr := some 0, Config := none, ID := "node1",
    PublisherID := "pub1", RunState := "ready", Status := some 0, NodeType := "sensor",
    Zone := "local" }

/-- Parameters for examples: one value as stored, one new key, one empty. -/
def exampleParams : GoMap String :=
  some [("name", "kitchen"), ("alias", "k1"), ("unit", "")]

/-- A signature service for examples: a message verifies when it is `key:`
followed by the payload, and the payload decodes to itself unless it is the
text `bad object`. -/
def exampleService : SignatureService String String :=
  { verify := fun msg key =>
      if (key.data ++ [':']).isPrefixOf msg.data then
        some (String.mk (msg.data.drop (key.data.length + 1)))
      else none
    decode := fun _ payload => if payload = "bad object" then none else some payload }

/-- A directory for examples that knows the key of publisher `pub1` and holds
one entry. -/
def exampleCollection : DomainCollection String String :=
  (NewDomainCollection (fun pubID => if pubID = "pub1" then some "k1" else none)).Update
    "test/pub1/node1/type/instance" "World"

/-- Collaborators for examples: none of them changes the publisher. -/
def exampleEnv : Collaborators Unit Unit Unit :=
  { LocalDomainID := "local"
    DefaultConfigFolder := "/etc/iotdomain"
    newServices := fun _ _ => ()
    PublishUpdates := fun p => p
    identitiesUpdateCount := fun _ => 0
    SaveIdentities := fun s => s
    callPollHandler := fun _ p => p }

/-- Collaborators for examples whose state is the number of handler calls: the
poll handler adds one to it. -/
def countingEnv : Collaborators Unit Unit Nat :=
  { LocalDomainID := "local"
    DefaultConfigFolder := "/etc/iotdomain"
    newServices := fun _ _ => 0
    PublishUpdates := fun p => p
    identitiesUpdateCount := fun _ => 0
    SaveIdentities := fun s => s
    callPollHandler := fun _ p => { p with services := p.services + 1 } }

/-- A publisher for examples as `NewPublisher` and `SetPollInterval(3, h)` leave
it, with no handler call counted yet. -/
def countingPublisher : Publisher Unit Unit Nat :=
  { config := PublisherConfig.zero, services := 0, isRunning := false, messenger := (),
    pollHandler := some (), pollCountdown := 0, pollInterval := 3 }

/-- A stopped publisher for examples, with a poll handler and poll interval 3. -/
def examplePublisher : Publisher Unit Unit Unit :=
  { config := PublisherConfig.zero, services := (), isRunning := false, messenger := (),
    pollHandler := some (), pollCountdown := 0, pollInterval := 3 }

/-- The directory of `TestCreateCollection` after its two updates. -/
def testCollection : DomainCollection String String :=
  ((NewDomainCollection (fun _ => none)).Update "domain/pub/node" "Hello").Update
    "domain/pub/node2/type/instance/$input" "World"

/-- A node for examples with one configured and one defaulted attribute. -/
def exampleNode : Node :=
  { Address := "local/pub1/node1/$node", Attr := some [], ID := "node1", PublisherID := "pub1",
    RunState := "", Status := some [], NodeType := "", Zone := "local",
    Config := some [("name", { ID := "name", DataType := "string", Description := "",
                               Default := "anon", Value := "" }),
                    ("alias", { ID := "alias", DataType := "string", Description := "",
                                Default := "", Value := "kitchen" })] }

/-! ## Lemmas on the address codec and the entry list -/

theorem splitSegments_ne_nil (xs : List Char) : splitSegments xs ≠ [] := by
  induction xs with
  | nil => simp [splitSegments]
  | cons c cs ih =>
    unfold splitSegments
    by_cases hc : c = '/'
    · simp [hc]
    · simp only [hc, if_false]
      split <;> simp

theorem splitSegments_append_sep (xs ys : List Char) :
    splitSegments (xs ++ '/' :: ys) = splitSegments xs ++ splitSegments ys := by
  induction xs with
  | nil => simp [splitSegments]
  | cons c cs ih =>
    by_cases hc : c = '/'
    · simp [splitSegments, hc, ih]
    · have h1 := splitSegments_ne_nil cs
      rw [List.cons_append]
      rw [splitSegments, splitSegments]
      simp only [hc, if_false, ih]
      cases hs : splitSegments cs with
      | nil => exact absurd hs h1
      | cons s ss => simp

theorem splitSegments_no_sep (ys : List Char) (h : '/' ∉ ys) : splitSegments ys = [ys] := by
  induction ys with
  | nil => simp [splitSegments]
  | cons c cs ih =>
    have hc : c ≠ '/' := fun hc => h (by simp [hc])
    have hcs : '/' ∉ cs := fun hcs => h (by simp [hcs])
    simp [splitSegments, hc, ih hcs]

theorem segments_append_qualifier (a q : String) (hq : '/' ∉ q.data) :
    segments (a ++ "/" ++ q) = segments a ++ [q] := by
  have h1 : (a ++ "/" ++ q).data = a.data ++ '/' :: q.data := by
    simp [String.data_append]
  simp [segments, h1, splitSegments_append_sep, splitSegments_no_sep _ hq]


theorem length_five_cases {α : Type} (l : List α) (h : l.length = 5) :
    ∃ a b c d e, l = [a, b, c, d, e] := by
  match l, h with
  | [a, b, c, d, e], _ => exact ⟨a, b, c, d, e, rfl⟩

theorem NodeKey_of_three (segs : Address) (h : segs.length = 3) : NodeKey segs = segs := by
  obtain ⟨z, p, n, rfl⟩ := List.length_eq_three.mp h
  simp [NodeKey]

theorem NodeKey_of_three_qualified (segs : Address) (q : String) (h : segs.length = 3) :
    NodeKey (segs ++ [q]) = segs := by
  obtain ⟨z, p, n, rfl⟩ := List.length_eq_three.mp h
  by_cases hq : isQualifier q = true <;> simp [NodeKey, hq]

theorem NodeKey_of_five (segs : Address) (h : segs.length = 5)
    (hq : ∀ s ∈ segs, isQualifier s = false) : NodeKey segs = segs := by
  obtain ⟨z, p, n, t, i, rfl⟩ := length_five_cases segs h
  have hi : isQualifier i = false := hq i (by simp)
  simp [NodeKey, hi]

theorem NodeKey_of_five_qualified (segs : Address) (q : String) (h : segs.length = 5) :
    NodeKey (segs ++ [q]) = segs := by
  obtain ⟨z, p, n, t, i, rfl⟩ := length_five_cases segs h
  by_cases hq : isQualifier q = true <;> simp [NodeKey, hq]

theorem lookupKey_storeKey_self {T : Type} (k : Address) (e : T) (l : List (Address × T)) :
    lookupKey k (storeKey k e l) = some e := by
  induction l with
  | nil => simp [storeKey, lookupKey]
  | cons kv rest ih =>
    obtain ⟨k', e'⟩ := kv
    by_cases hk : k' = k <;> simp [storeKey, lookupKey, hk, ih]


theorem Canonicalize_ok (a : String) (h : 3 ≤ (segments a).length) :
    Canonicalize a = Except.ok (segments a) := by
  simp [Canonicalize]; omega

theorem Canonicalize_error (a : String) (h : (segments a).length < 3) :
    Canonicalize a = Except.error DiscoveryError.AddressError := by
  simp [Canonicalize, h]

theorem GetByAddress_ok {K T : Type} (c : DomainCollection K T) (a : String)
    (h : 3 ≤ (segments a).length) :
    c.GetByAddress a = lookupKey (NodeKey (segments a)) c.items := by
  simp [DomainCollection.GetByAddress, Canonicalize_ok a h]

theorem Update_items_ok {K T : Type} (c : DomainCollection K T) (a : String) (e : T)
    (h : 3 ≤ (segments a).length) :
    (c.Update a e).items = storeKey (NodeKey (segments a)) e c.items := by
  simp [DomainCollection.Update, Canonicalize_ok a h]

theorem NodeKey_wellFormed (a : String) (h : WellFormedNodeAddress a) :
    NodeKey (segments a) = segments a := by
  rcases h with ⟨h3 | h5, hq⟩
  · exact NodeKey_of_three _ h3
  · exact NodeKey_of_five _ h5 hq

theorem NodeKey_wellFormed_qualified (a q : String) (h : WellFormedNodeAddress a)
    (hq : '/' ∉ q.data) : NodeKey (segments (a ++ "/" ++ q)) = segments a := by
  rw [segments_append_qualifier a q hq]
  rcases h with ⟨h3 | h5, _⟩
  · exact NodeKey_of_three_qualified _ q h3
  · exact NodeKey_of_five_qualified _ q h5

/-- C1: after `Update` under a well-formed address `a`, or under `a` followed
by one more segment `q` (a message-type qualifier such as `$input`), both
`GetByAddress a` and `GetByAddress (a ++ "/$set")` return the stored entity. -/
theorem update_then_get_ignores_qualifier {K T : Type} (c : DomainCollection K T)
    (a q : String) (e : T) (ha : WellFormedNodeAddress a)
    (hsep : '/' ∉ q.data) :
    (c.Update a e).GetByAddress a = some e ∧
    (c.Update a e).GetByAddress (a ++ "/$set") = some e ∧
    (c.Update (a ++ "/" ++ q) e).GetByAddress a = some e ∧
    (c.Update (a ++ "/" ++ q) e).GetByAddress (a ++ "/$set") = some e := by
  have hlen : 3 ≤ (segments a).length := by rcases ha with ⟨h | h, _⟩ <;> omega
  have hset : a ++ "/$set" = a ++ "/" ++ "$set" := by
    rw [String.append_assoc]; rfl
  have hsetsep : '/' ∉ ("$set" : String).data := by decide
  have hlenq : ∀ r : String, '/' ∉ r.data → 3 ≤ (segments (a ++ "/" ++ r)).length := by
    intro r hr
    rw [segments_append_qualifier a r hr]; simp; omega
  have k1 := NodeKey_wellFormed a ha
  have k2 := NodeKey_wellFormed_qualified a q ha hsep
  have k3 := NodeKey_wellFormed_qualified a "$set" ha hsetsep
  refine ⟨?_, ?_, ?_, ?_⟩
  · rw [GetByAddress_ok _ _ hlen, Update_items_ok _ _ _ hlen, k1, lookupKey_storeKey_self]
  · rw [hset, GetByAddress_ok _ _ (hlenq _ hsetsep), Update_items_ok _ _ _ hlen, k1, k3,
      lookupKey_storeKey_self]
  · rw [GetByAddress_ok _ _ hlen, Update_items_ok _ _ _ (hlenq _ hsep), k1, k2,
      lookupKey_storeKey_self]
  · rw [hset, GetByAddress_ok _ _ (hlenq _ hsetsep), Update_items_ok _ _ _ (hlenq _ hsep),
      k2, k3, lookupKey_storeKey_self]

/-- Witness for C1: the input address of the test, stored under its `$input`
qualifier and read back bare. -/
theorem update_then_get_ignores_qualifier_witness :
    WellFormedNodeAddress "domain/pub/node2/type/instance" ∧
    ((NewDomainCollection (fun _ => none) : DomainCollection Nat String).Update
        ("domain/pub/node2/type/instance" ++ "/" ++ "$input") "World").GetByAddress
      "domain/pub/node2/type/instance" = some "World" :=
  ⟨⟨by decide, by decide⟩,
   (update_then_get_ignores_qualifier (NewDomainCollection (fun _ => none))
      "domain/pub/node2/type/instance" "$input" "World" ⟨by decide, by decide⟩
      (by decide)).2.2.1⟩


/-! ## Discovery, prefix queries and removal -/

/-- C2: when a discovery message fails at any step (address, signer, signature
or decoding), `HandleDiscovery` returns a non-nil error and the directory it
returns is the one it was given; every `GetByAddress` answers as before. -/
theorem HandleDiscovery_failure_keeps_collection {K T : Type} (svc : SignatureService K T)
    (c : DomainCollection K T) (address rawMessage : String) (hint : T)
    (hfail : DiscoveryFails svc c address rawMessage hint) :
    (∃ err, c.HandleDiscovery svc address rawMessage hint = (some err, c)) ∧
    ∀ a, (c.HandleDiscovery svc address rawMessage hint).2.GetByAddress a
      = c.GetByAddress a := by
  have key : ∃ err, c.HandleDiscovery svc address rawMessage hint = (some err, c) := by
    by_cases hlen : (segments address).length < 3
    · exact ⟨DiscoveryError.AddressError,
        by simp only [DomainCollection.HandleDiscovery, Canonicalize_error address hlen]⟩
    · have hok := Canonicalize_ok address (by omega)
      rcases hfail with h | h | ⟨key, hk, hv⟩ | ⟨key, payload, hk, hv, hd⟩
      · exact absurd h hlen
      · exact ⟨DiscoveryError.UnknownSignerError,
          by simp only [DomainCollection.HandleDiscovery, hok, h]⟩
      · exact ⟨DiscoveryError.SignatureError,
          by simp only [DomainCollection.HandleDiscovery, hok, hk, hv]⟩
      · exact ⟨DiscoveryError.DecodeError,
          by simp only [DomainCollection.HandleDiscovery, hok, hk, hv, hd]⟩
  obtain ⟨err, herr⟩ := key
  exact ⟨⟨err, herr⟩, fun a => by rw [herr]⟩

/-- Witness for C2: a signed message whose payload is the `bad object` of the
test leaves the stored entry in place. -/
theorem HandleDiscovery_failure_keeps_collection_witness :
    DiscoveryFails exampleService exampleCollection "test/pub1/node1/type/instance"
      "k1:bad object" "" ∧
    (exampleCollection.HandleDiscovery exampleService "test/pub1/node1/type/instance"
      "k1:bad object" "").2.GetByAddress "test/pub1/node1/type/instance" = some "World" :=
  ⟨Or.inr (Or.inr (Or.inr ⟨"k1", "bad object", by decide, by decide, by decide⟩)),
   ((HandleDiscovery_failure_keeps_collection exampleService exampleCollection
      "test/pub1/node1/type/instance" "k1:bad object" ""
      (Or.inr (Or.inr (Or.inr ⟨"k1", "bad object", by decide, by decide, by decide⟩)))).2
      "test/pub1/node1/type/instance").trans (by decide)⟩

theorem lookupKey_deleteKey_self {T : Type} (k : Address) (l : List (Address × T)) :
    lookupKey k (deleteKey k l) = none := by
  induction l with
  | nil => rfl
  | cons kv rest ih =>
    obtain ⟨k', e'⟩ := kv
    by_cases hk : k' = k
    · simp only [deleteKey, hk, if_true]; exact ih
    · simp only [deleteKey, hk, if_false, lookupKey]; exact ih

theorem lookupKey_deleteKey_other {T : Type} (k k' : Address) (l : List (Address × T))
    (h : k' ≠ k) : lookupKey k' (deleteKey k l) = lookupKey k' l := by
  induction l with
  | nil => rfl
  | cons kv rest ih =>
    obtain ⟨k2, e2⟩ := kv
    by_cases h2 : k2 = k
    · have h3 : ¬ k2 = k' := fun h4 => h (h4 ▸ h2)
      simp only [deleteKey, h2, if_true, lookupKey]
      rw [ih]
      have h5 : ¬ k = k' := fun h6 => h h6.symm
      simp only [h5, if_false]
    · simp only [deleteKey, h2, if_false, lookupKey, ih]

theorem deleteKey_of_lookup_none {T : Type} (k : Address) (l : List (Address × T))
    (h : lookupKey k l = none) : deleteKey k l = l := by
  induction l with
  | nil => rfl
  | cons kv rest ih =>
    obtain ⟨k', e'⟩ := kv
    by_cases hk : k' = k
    · simp [lookupKey, hk] at h
    · simp only [lookupKey, hk, if_false] at h
      simp only [deleteKey, hk, if_false, ih h]

/-- C3: for a prefix address `p` (at least zone/publisherID/nodeID),
`GetByAddressPrefix p` yields exactly the entities of the entries whose
address has the segments of `p` as a segment-wise prefix: the result is the
entity column of a sublist of the entries that holds just those entries. -/
theorem GetByAddressPrefix_exact {K T : Type} (c : DomainCollection K T) (p : String)
    (hp : 3 ≤ (segments p).length) :
    ∃ sel : List (Address × T), sel.Sublist c.items ∧
      c.GetByAddressPrefix p = sel.map Prod.snd ∧
      ∀ kv, kv ∈ sel ↔ kv ∈ c.items ∧ segments p <+: kv.1 := by
  refine ⟨c.items.filter (fun kv => HasPrefix kv.1 (segments p)), List.filter_sublist _, ?_, ?_⟩
  · simp only [DomainCollection.GetByAddressPrefix, Canonicalize_ok p hp]
  · intro kv
    simp only [List.mem_filter, HasPrefix, List.isPrefixOf_iff_prefix]

/-- Witness for C3: the node address of the test as prefix. -/
theorem GetByAddressPrefix_exact_witness :
    3 ≤ (segments "domain/pub/node").length ∧
    ∃ sel : List (Address × String), sel.Sublist testCollection.items ∧
      testCollection.GetByAddressPrefix "domain/pub/node" = sel.map Prod.snd ∧
      ∀ kv, kv ∈ sel ↔ kv ∈ testCollection.items ∧ segments "domain/pub/node" <+: kv.1 :=
  ⟨by decide, GetByAddressPrefix_exact testCollection "domain/pub/node" (by decide)⟩

/-- The sibling `node2` shares a string prefix with `node` but is not returned
for it, and the subtree of `node2` holds the one input. -/
theorem GetByAddressPrefix_excludes_sibling :
    testCollection.GetByAddressPrefix "domain/pub/node" = ["Hello"] ∧
    testCollection.GetByAddressPrefix "domain/pub/node2" = ["World"] := by
  decide

/-- C4: after `Remove a` the address `a` is no longer found, every other key
reads as before, the update counter and the key resolver are untouched, and
`Remove` of an address without entry (also a second `Remove`) returns the
directory as it was. -/
theorem Remove_spec {K T : Type} (c : DomainCollection K T) (a : String) :
    (c.Remove a).GetByAddress a = none ∧
    (∀ k, k ≠ NodeKey (segments a) →
      lookupKey k (c.Remove a).items = lookupKey k c.items) ∧
    (c.Remove a).updateCount = c.updateCount ∧
    (c.Remove a).getPublicKey = c.getPublicKey ∧
    (c.GetByAddress a = none → c.Remove a = c) ∧
    (c.Remove a).Remove a = c.Remove a := by
  by_cases hlen : (segments a).length < 3
  · have herr := Canonicalize_error a hlen
    simp only [DomainCollection.Remove, DomainCollection.GetByAddress, herr]
    simp
  · have hok := Canonicalize_ok a (by omega)
    have hnone : c.GetByAddress a = none → c.Remove a = c := by
      intro h
      simp only [DomainCollection.GetByAddress, hok] at h
      simp only [DomainCollection.Remove, hok, deleteKey_of_lookup_none _ _ h]
    have hget : (c.Remove a).GetByAddress a = none := by
      simp only [DomainCollection.Remove, DomainCollection.GetByAddress, hok,
        lookupKey_deleteKey_self]
    refine ⟨hget, ?_, ?_, ?_, hnone, ?_⟩
    · intro k hk
      simp only [DomainCollection.Remove, hok]
      exact lookupKey_deleteKey_other _ _ _ hk
    · simp only [DomainCollection.Remove, hok]
    · simp only [DomainCollection.Remove, hok]
    · have h2 : (c.Remove a).GetByAddress a = none → (c.Remove a).Remove a = c.Remove a := by
        intro h
        simp only [DomainCollection.GetByAddress, hok] at h
        simp only [DomainCollection.Remove, hok] at h ⊢
        rw [deleteKey_of_lookup_none _ _ h]
      exact h2 hget

/-- Witness for C4 on the directory of the test: `Remove` of the node leaves
the input of `node2` readable. -/
theorem Remove_spec_witness :
    (testCollection.Remove "domain/pub/node").GetByAddress "domain/pub/node" = none ∧
    lookupKey ["domain", "pub", "node2", "type", "instance"]
        (testCollection.Remove "domain/pub/node").items = some "World" :=
  ⟨(Remove_spec testCollection "domain/pub/node").1,
   ((Remove_spec testCollection "domain/pub/node").2.1
      ["domain", "pub", "node2", "type", "instance"] (by decide)).trans (by decide)⟩

/-! ## The heartbeat poll countdown -/

theorem heartbeatPoll_spec {M H S : Type} (env : Collaborators M H S) (pub : Publisher M H S)
    (h : H) (N : Int) (hcall : ∀ h', KeepsPollFields (env.callPollHandler h'))
    (hh : pub.pollHandler = some h) (hN : pub.pollInterval = N) :
    (heartbeatPoll env pub).2 = decide (pub.pollCountdown ≤ 0) ∧
    (heartbeatPoll env pub).1.pollHandler = some h ∧
    (heartbeatPoll env pub).1.pollInterval = N ∧
    (heartbeatPoll env pub).1.pollCountdown
      = if pub.pollCountdown ≤ 0 then N else pub.pollCountdown := by
  obtain ⟨_, ci, ch⟩ := hcall h pub
  by_cases hc : pub.pollCountdown ≤ 0
  · simp [heartbeatPoll, hh, hc, ci, ch, hN]
  · simp [heartbeatPoll, hh, hc, hN]

theorem heartbeatTick_spec {M H S : Type} (env : Collaborators M H S) (pub : Publisher M H S)
    (h : H) (N : Int)
    (hpu : KeepsPollFields env.PublishUpdates)
    (hcall : ∀ h', KeepsPollFields (env.callPollHandler h'))
    (hh : pub.pollHandler = some h) (hN : pub.pollInterval = N) :
    (heartbeatTick env pub).2 = decide (pub.pollCountdown ≤ 0) ∧
    (heartbeatTick env pub).1.pollHandler = some h ∧
    (heartbeatTick env pub).1.pollInterval = N ∧
    (heartbeatTick env pub).1.pollCountdown
      = if pub.pollCountdown ≤ 0 then N - 1 else pub.pollCountdown - 1 := by
  obtain ⟨p1c, p1i, p1h⟩ := hpu pub
  have h2 : ∃ pub2, heartbeatTick env pub =
      ({ (heartbeatPoll env pub2).1 with
          pollCountdown := (heartbeatPoll env pub2).1.pollCountdown - 1 },
        (heartbeatPoll env pub2).2) ∧
      pub2.pollCountdown = pub.pollCountdown ∧ pub2.pollInterval = N ∧
      pub2.pollHandler = some h := by
    by_cases hs : (env.PublishUpdates pub).config.SaveDiscoveredPublishers = true ∧
        env.identitiesUpdateCount (env.PublishUpdates pub).services > 0
    · exact ⟨(env.PublishUpdates pub).SaveDomainPublishers env,
        by simp only [heartbeatTick, hs, and_self, if_true],
        by simp [Publisher.SaveDomainPublishers, p1c, p1i, p1h, hh, hN]⟩
    · exact ⟨env.PublishUpdates pub,
        by simp only [heartbeatTick, hs, if_false],
        by simp [p1c, p1i, p1h, hh, hN]⟩
  obtain ⟨pub2, htick, c2, i2, hd2⟩ := h2
  obtain ⟨q1, q2, q3, q4⟩ := heartbeatPoll_spec env pub2 h N hcall hd2 i2
  rw [htick]
  refine ⟨by simpa [c2] using q1, q2, q3, ?_⟩
  simp only [q4, c2]
  split <;> rfl

theorem neg_succ_emod (N : Int) (j : Nat) (hN : 1 ≤ N) :
    (-((j + 1 : Nat) : Int)) % N
      = if (-(j : Int)) % N ≤ 0 then N - 1 else (-(j : Int)) % N - 1 := by
  have hpos : 0 < N := by omega
  have hr0 := Int.emod_nonneg (-(j : Int)) (ne_of_gt hpos)
  have hr1 := Int.emod_lt_of_pos (-(j : Int)) hpos
  have hsplit : (-((j + 1 : Nat) : Int)) % N = ((-(j : Int)) % N - 1) % N := by
    have e1 : (-((j + 1 : Nat) : Int)) = ((-(j : Int)) % N - 1) + N * ((-(j : Int)) / N) := by
      have := Int.emod_add_ediv (-(j : Int)) N
      push_cast; omega
    rw [e1, Int.add_mul_emod_self_left]
  rw [hsplit]
  by_cases hz : (-(j : Int)) % N ≤ 0
  · have h0 : (-(j : Int)) % N = 0 := by omega
    simp only [hz, if_true, h0]
    have : (0 - 1 : Int) = (N - 1) + (-1) * N := by ring
    rw [this, Int.add_mul_emod_self]
    exact Int.emod_eq_of_lt (by omega) (by omega)
  · simp only [hz, if_false]
    exact Int.emod_eq_of_lt (by omega) (by omega)

theorem heartbeatRun_invariant {M H S : Type} (env : Collaborators M H S)
    (pub : Publisher M H S) (h : H) (N : Int) (hN1 : 1 ≤ N)
    (hpu : KeepsPollFields env.PublishUpdates)
    (hcall : ∀ h', KeepsPollFields (env.callPollHandler h'))
    (hh : pub.pollHandler = some h) (hN : pub.pollInterval = N)
    (h0 : pub.pollCountdown = 0) (j : Nat) :
    (heartbeatRun env j pub).pollHandler = some h ∧
    (heartbeatRun env j pub).pollInterval = N ∧
    (heartbeatRun env j pub).pollCountdown = (-(j : Int)) % N := by
  induction j with
  | zero => simp [heartbeatRun, hh, hN, h0]
  | succ j ih =>
    obtain ⟨i1, i2, i3⟩ := ih
    obtain ⟨_, t2, t3, t4⟩ := heartbeatTick_spec env (heartbeatRun env j pub) h N hpu hcall i1 i2
    refine ⟨t2, t3, ?_⟩
    simp only [heartbeatRun]
    rw [t4, i3, neg_succ_emod N j hN1]

/-- The poll step raises a counter of handler calls by one exactly when it
reports an invocation. -/
theorem heartbeatPoll_count {M H S : Type} (env : Collaborators M H S) (pub : Publisher M H S)
    (count : S → Nat) (hcount : CountsPollCalls env count) :
    count (heartbeatPoll env pub).1.services
      = count pub.services + (if (heartbeatPoll env pub).2 = true then 1 else 0) := by
  unfold heartbeatPoll
  cases hh : pub.pollHandler with
  | none => simp
  | some h =>
    by_cases hc : pub.pollCountdown ≤ 0
    · simp [hc, hcount.1 h pub]
    · simp [hc]

/-- One pass through the loop body raises a counter of handler calls by one
exactly when it reports an invocation. -/
theorem heartbeatTick_count {M H S : Type} (env : Collaborators M H S) (pub : Publisher M H S)
    (count : S → Nat) (hcount : CountsPollCalls env count) :
    count (heartbeatTick env pub).1.services
      = count pub.services + (if (heartbeatTick env pub).2 = true then 1 else 0) := by
  have h2 : ∃ pub2, heartbeatTick env pub =
      ({ (heartbeatPoll env pub2).1 with
          pollCountdown := (heartbeatPoll env pub2).1.pollCountdown - 1 },
        (heartbeatPoll env pub2).2) ∧
      count pub2.services = count pub.services := by
    by_cases hs : (env.PublishUpdates pub).config.SaveDiscoveredPublishers = true ∧
        env.identitiesUpdateCount (env.PublishUpdates pub).services > 0
    · exact ⟨(env.PublishUpdates pub).SaveDomainPublishers env,
        by simp only [heartbeatTick, hs, and_self, if_true],
        by simp [Publisher.SaveDomainPublishers, hcount.2.2, hcount.2.1]⟩
    · exact ⟨env.PublishUpdates pub,
        by simp only [heartbeatTick, hs, if_false], hcount.2.1 pub⟩
  obtain ⟨pub2, htick, hc2⟩ := h2
  rw [htick, ← hc2]
  exact heartbeatPoll_count env pub2 count hcount

/-- C5: with a poll handler set, a constant poll interval `N ≥ 1` and the
countdown at 0 as `NewPublisher` leaves it, the heartbeat loop invokes the
handler on tick `k ≥ 1` exactly when `k mod N = 1 mod N`: the loop body
reports an invocation on just those ticks, and every counter that the handler
itself raises by one on each call stands one higher after such a tick and as
before after every other tick. -/
theorem pollHandler_every_pollInterval_ticks {M H S : Type} (env : Collaborators M H S)
    (pub : Publisher M H S) (h : H) (N : Int) (k : Nat) (count : S → Nat)
    (hpu : KeepsPollFields env.PublishUpdates)
    (hcall : ∀ h', KeepsPollFields (env.callPollHandler h'))
    (hcount : CountsPollCalls env count)
    (hh : pub.pollHandler = some h) (hN : pub.pollInterval = N) (hN1 : 1 ≤ N)
    (h0 : pub.pollCountdown = 0) (hk : 1 ≤ k) :
    (pollFiredOnTick env pub k = true ↔ (k : Int) % N = 1 % N) ∧
    count (heartbeatRun env k pub).services
      = count (heartbeatRun env (k - 1) pub).services
        + (if (k : Int) % N = 1 % N then 1 else 0) := by
  obtain ⟨i1, i2, i3⟩ := heartbeatRun_invariant env pub h N hN1 hpu hcall hh hN h0 (k - 1)
  obtain ⟨t1, _⟩ := heartbeatTick_spec env (heartbeatRun env (k - 1) pub) h N hpu hcall i1 i2
  have hpos : 0 < N := by omega
  have hr0 := Int.emod_nonneg (-((k - 1 : Nat) : Int)) (ne_of_gt hpos)
  have hcast : ((k - 1 : Nat) : Int) = (k : Int) - 1 := by omega
  have hfire : pollFiredOnTick env pub k = true ↔ (k : Int) % N = 1 % N := by
    unfold pollFiredOnTick
    rw [t1, i3, decide_eq_true_iff]
    constructor
    · intro hle
      have hz : (-((k - 1 : Nat) : Int)) % N = 0 := by omega
      have hd : N ∣ -((k - 1 : Nat) : Int) := Int.dvd_of_emod_eq_zero hz
      rw [Int.dvd_neg, hcast] at hd
      exact Int.emod_eq_emod_iff_emod_sub_eq_zero.mpr (Int.emod_eq_zero_of_dvd hd)
    · intro he
      have hd : N ∣ (k : Int) - 1 :=
        Int.dvd_of_emod_eq_zero (Int.emod_eq_emod_iff_emod_sub_eq_zero.mp he)
      rw [← hcast, ← Int.dvd_neg] at hd
      have hz := Int.emod_eq_zero_of_dvd hd
      omega
  refine ⟨hfire, ?_⟩
  have hstep : heartbeatRun env k pub
      = (heartbeatTick env (heartbeatRun env (k - 1) pub)).1 := by
    obtain ⟨j, rfl⟩ : ∃ j, k = j + 1 := ⟨k - 1, by omega⟩
    rfl
  rw [hstep, heartbeatTick_count env _ count hcount]
  have hsame : (heartbeatTick env (heartbeatRun env (k - 1) pub)).2 = pollFiredOnTick env pub k :=
    rfl
  rw [hsame]
  by_cases hm : (k : Int) % N = 1 % N
  · rw [if_pos (hfire.mpr hm), if_pos hm]
  · rw [if_neg (fun hf => hm (hfire.mp hf)), if_neg hm]

/-! ## Publisher construction, polling setup and stop; node configuration -/

/-- Witness for C5: with poll interval 3 and a handler that counts its own
calls, the handler runs on tick 4 and the count goes up by one there. -/
theorem pollHandler_every_pollInterval_ticks_witness :
    (1 : Int) ≤ 3 ∧ CountsPollCalls countingEnv (fun calls => calls) ∧
    (pollFiredOnTick countingEnv countingPublisher 4 = true ↔ ((4 : Nat) : Int) % 3 = 1 % 3) ∧
    (heartbeatRun countingEnv 4 countingPublisher).services
      = (heartbeatRun countingEnv (4 - 1) countingPublisher).services
        + (if ((4 : Nat) : Int) % 3 = 1 % 3 then 1 else 0) :=
  ⟨by decide, ⟨fun _ _ => rfl, fun _ => rfl, fun _ => rfl⟩,
   pollHandler_every_pollInterval_ticks countingEnv countingPublisher () 3 4 (fun calls => calls)
     (fun _ => ⟨rfl, rfl, rfl⟩) (fun _ _ => ⟨rfl, rfl, rfl⟩)
     ⟨fun _ _ => rfl, fun _ => rfl, fun _ => rfl⟩ rfl rfl (by decide) rfl (by decide)⟩

/-- The number of handler calls after 0 to 9 ticks with poll interval 3: the
handler runs on ticks 1, 4 and 7 and on no other. -/
theorem pollHandler_call_counts :
    (List.range 10).map (fun k => (heartbeatRun countingEnv k countingPublisher).services)
      = [0, 1, 1, 1, 2, 2, 2, 3, 3, 3] := by
  decide

/-- C6, as the claim states it, fails: `Stop` on a publisher that is not running
still publishes the disconnected status and disconnects the messenger. -/
theorem Stop_not_running_still_acts :
    examplePublisher.isRunning = false ∧
    ¬ (examplePublisher.Stop.1 = examplePublisher ∧ examplePublisher.Stop.2 = []) ∧
    StopAction.setPublisherStatus PublisherRunState.Disconnected ∈ examplePublisher.Stop.2 ∧
    StopAction.messengerDisconnect ∈ examplePublisher.Stop.2 := by
  refine ⟨rfl, ?_, ?_, ?_⟩
  · intro h
    exact absurd h.2 (by decide)
  · decide
  · decide

/-- C6 as amended: `Stop` on a publisher that is not running leaves every field
of the publisher as it was, stops no receiver and does not wait for the
heartbeat; its outward actions are the publication of the disconnected status
and the messenger's `Disconnect`, and a second `Stop` does the same again. -/
theorem Stop_not_running {M H S : Type} (pub : Publisher M H S)
    (h : pub.isRunning = false) :
    pub.Stop.1 = pub ∧
    pub.Stop.2 = [StopAction.setPublisherStatus PublisherRunState.Disconnected,
                  StopAction.messengerDisconnect] ∧
    pub.Stop.1.Stop = pub.Stop := by
  have e : pub.Stop = (pub, [StopAction.setPublisherStatus PublisherRunState.Disconnected,
      StopAction.messengerDisconnect]) := by
    simp [Publisher.Stop, h]
  rw [e]
  exact ⟨rfl, rfl, e⟩

/-- Witness for the amended C6 on the example publisher. -/
theorem Stop_not_running_witness :
    examplePublisher.isRunning = false ∧
    examplePublisher.Stop.2 = [StopAction.setPublisherStatus PublisherRunState.Disconnected,
                  StopAction.messengerDisconnect] :=
  ⟨rfl, (Stop_not_running examplePublisher rfl).2.1⟩

/-- C7: `NewPublisher` returns nil exactly when the messenger is nil; with a
messenger, and with or without a config, it returns a publisher that is not
running, has no poll handler, poll interval `DefaultPollInterval = 600`,
countdown 0, the messenger it was given, and a config whose domain is the
given one or, when that is empty or there is no config, the local domain. -/
theorem NewPublisher_spec {M H S : Type} (env : Collaborators M H S) :
    DefaultPollInterval = 600 ∧
    (∀ (config : Option PublisherConfig) (messenger : Option M),
      NewPublisher env config messenger = none ↔ messenger = none) ∧
    (∀ (config : Option PublisherConfig) (m : M),
      ∃ pub, NewPublisher env config (some m) = some pub ∧
        pub.isRunning = false ∧ pub.pollInterval = 600 ∧ pub.pollCountdown = 0 ∧
        pub.pollHandler = none ∧ pub.messenger = m ∧
        pub.config.Domain =
          (match config with
            | none => env.LocalDomainID
            | some cfg => if cfg.Domain = "" then env.LocalDomainID else cfg.Domain)) := by
  refine ⟨rfl, ?_, ?_⟩
  · intro config messenger
    cases messenger <;> simp [NewPublisher]
  · intro config m
    refine ⟨_, rfl, rfl, rfl, rfl, rfl, rfl, ?_⟩
    cases config with
    | none =>
      simp only [PublisherConfig.zero]
      split <;> simp_all
    | some cfg =>
      by_cases hd : cfg.Domain = "" <;> simp only [hd, if_true, if_false] <;> split <;> simp [hd]

/-- C8: `SetPollInterval seconds h` sets the poll interval to `seconds` when
`seconds > 0` and to `DefaultPollInterval = 600` otherwise, sets the poll
handler to `h`, and leaves every other field of the publisher as it was. -/
theorem SetPollInterval_spec {M H S : Type} (pub : Publisher M H S) (seconds : Int)
    (handler : Option H) :
    (pub.SetPollInterval seconds handler).pollInterval
      = (if 0 < seconds then seconds else 600) ∧
    (pub.SetPollInterval seconds handler).pollHandler = handler ∧
    (pub.SetPollInterval seconds handler).pollCountdown = pub.pollCountdown ∧
    (pub.SetPollInterval seconds handler).isRunning = pub.isRunning ∧
    (pub.SetPollInterval seconds handler).config = pub.config ∧
    (pub.SetPollInterval seconds handler).services = pub.services ∧
    (pub.SetPollInterval seconds handler).messenger = pub.messenger := by
  by_cases hs : 0 < seconds <;>
    simp [Publisher.SetPollInterval, hs, DefaultPollInterval]

/-- C10: `GetConfigValue a` returns `("", false)` when the node's Config has
no entry for `a`; with an entry it returns `configExists = true` and the
entry's `Value`, or its `Default` when `Value` is empty.  The node is left as
it was. -/
theorem GetConfigValue_spec (node : Node) (a : String) :
    (node.Config.lookup a = none → node.GetConfigValue a = (("", false), node)) ∧
    (∀ cfg, node.Config.lookup a = some cfg →
      node.GetConfigValue a
        = ((if cfg.Value = "" then cfg.Default else cfg.Value, true), node)) := by
  constructor
  · intro h
    simp [Node.GetConfigValue, h]
  · intro cfg h
    by_cases hv : cfg.Value = "" <;> simp [Node.GetConfigValue, h, hv]

/-- Witness for C10: an attribute without entry, and one whose value is empty
so that the default is returned. -/
theorem GetConfigValue_spec_witness :
    exampleNode.GetConfigValue "missing" = (("", false), exampleNode) ∧
    exampleNode.GetConfigValue "name" = (("anon", true), exampleNode) :=
  ⟨(GetConfigValue_spec exampleNode "missing").1 (by decide),
   ((GetConfigValue_spec exampleNode "name").2
      { ID := "name", DataType := "string", Description := "", Default := "anon", Value := "" }
      (by decide)).trans (by decide)⟩

/-! ## Go maps and the setters of a node -/

theorem GoMap_lookup_nil {V : Type} (k : String) :
    GoMap.lookup (some ([] : List (String × V))) k = none := rfl

theorem GoMap_lookup_cons {V : Type} (k k' : String) (v : V) (rest : List (String × V)) :
    GoMap.lookup (some ((k', v) :: rest)) k
      = if k' = k then some v else GoMap.lookup (some rest) k := by
  by_cases h : k' = k <;> simp [GoMap.lookup, List.find?, h]

theorem GoMap_lookup_storeEntry_self {V : Type} (k : String) (v : V)
    (l : List (String × V)) : GoMap.lookup (some (storeEntry k v l)) k = some v := by
  induction l with
  | nil => simp [storeEntry, GoMap_lookup_cons]
  | cons kv rest ih =>
    obtain ⟨k', v'⟩ := kv
    by_cases hk : k' = k
    · simp [storeEntry, hk, GoMap_lookup_cons]
    · simp [storeEntry, hk, GoMap_lookup_cons, ih]

theorem GoMap_lookup_storeEntry_other {V : Type} (k k' : String) (v : V)
    (l : List (String × V)) (h : k' ≠ k) :
    GoMap.lookup (some (storeEntry k v l)) k' = GoMap.lookup (some l) k' := by
  induction l with
  | nil =>
    have h2 : ¬ k = k' := fun e => h e.symm
    simp [storeEntry, GoMap_lookup_cons, h2]
  | cons kv rest ih =>
    obtain ⟨k2, v2⟩ := kv
    by_cases hk : k2 = k
    · subst hk
      have h2 : ¬ k2 = k' := fun e => h e.symm
      simp [storeEntry, GoMap_lookup_cons, h2]
    · simp [storeEntry, hk, GoMap_lookup_cons, ih]

theorem GoMap_lookup_eq_none_of_not_mem {V : Type} (k : String) (l : List (String × V))
    (h : k ∉ l.map Prod.fst) : GoMap.lookup (some l) k = none := by
  induction l with
  | nil => rfl
  | cons kv rest ih =>
    obtain ⟨k', v'⟩ := kv
    simp only [List.map_cons, List.mem_cons, not_or] at h
    have h2 : ¬ k' = k := fun e => h.1 e.symm
    simp [GoMap_lookup_cons, h2, ih h.2]

/-- What the loop of `SetNodeAttr`/`SetNodeStatus` does to a non-nil map, for
parameters with one entry per key. -/
theorem setStringValues_spec (params : List (String × String))
    (hnd : (params.map Prod.fst).Nodup) (changed0 : Bool) (entries : List (String × String)) :
    ∃ changed entries',
      setStringValues params changed0 (some entries) = some (changed, some entries') ∧
      (∀ k v, GoMap.lookup (some params) k = some v →
        (GoMap.lookup (some entries') k).getD "" = v) ∧
      (∀ k v, GoMap.lookup (some params) k = some v →
        (GoMap.lookup (some entries) k).getD "" = v →
        GoMap.lookup (some entries') k = GoMap.lookup (some entries) k) ∧
      (∀ k, GoMap.lookup (some params) k = none →
        GoMap.lookup (some entries') k = GoMap.lookup (some entries) k) ∧
      (changed = true ↔ changed0 = true ∨ ∃ k v, GoMap.lookup (some params) k = some v ∧
        (GoMap.lookup (some entries) k).getD "" ≠ v) ∧
      (changed = false → entries' = entries) := by
  induction params generalizing changed0 entries with
  | nil =>
    exact ⟨changed0, entries, rfl, by simp [GoMap_lookup_nil], by simp [GoMap_lookup_nil],
      fun _ _ => rfl, by simp [GoMap_lookup_nil], fun _ => rfl⟩
  | cons kv rest ih =>
    obtain ⟨key, value⟩ := kv
    simp only [List.map_cons, List.nodup_cons] at hnd
    obtain ⟨hkey, hrest⟩ := hnd
    have hknone : GoMap.lookup (some rest) key = none :=
      GoMap_lookup_eq_none_of_not_mem key rest hkey
    by_cases hne : (GoMap.lookup (some entries) key).getD "" ≠ value
    · obtain ⟨changed, entries', hrun, p1, p2, p3, p4, _⟩ :=
        ih hrest true (storeEntry key value entries)
      have hself := GoMap_lookup_storeEntry_self key value entries
      refine ⟨changed, entries', ?_, ?_, ?_, ?_, ?_, ?_⟩
      · simp only [setStringValues, GoMap.store]
        rw [if_pos hne]
        exact hrun
      · intro k v hk
        rw [GoMap_lookup_cons] at hk
        by_cases hkk : key = k
        · subst hkk
          simp only [if_true, Option.some.injEq] at hk
          rw [p3 key hknone, hself, ← hk]; rfl
        · simp only [hkk, if_false] at hk
          exact p1 k v hk
      · intro k v hk hv
        rw [GoMap_lookup_cons] at hk
        by_cases hkk : key = k
        · subst hkk
          simp only [if_true, Option.some.injEq] at hk
          exact absurd (hk ▸ hv) hne
        · simp only [hkk, if_false] at hk
          have hoth := GoMap_lookup_storeEntry_other key k value entries (fun e => hkk e.symm)
          rw [← hoth]
          exact p2 k v hk (by rw [hoth]; exact hv)
      · intro k hk
        rw [GoMap_lookup_cons] at hk
        by_cases hkk : key = k
        · simp [hkk] at hk
        · simp only [hkk, if_false] at hk
          rw [p3 k hk]
          exact GoMap_lookup_storeEntry_other key k value entries (fun e => hkk e.symm)
      · have hc : changed = true := p4.mpr (Or.inl rfl)
        simp only [hc, true_iff]
        exact Or.inr ⟨key, value, by simp [GoMap_lookup_cons], hne⟩
      · intro hc
        have : changed = true := p4.mpr (Or.inl rfl)
        rw [this] at hc; exact absurd hc (by decide)
    · have heq : (GoMap.lookup (some entries) key).getD "" = value := not_not.mp hne
      obtain ⟨changed, entries', hrun, p1, p2, p3, p4, p5⟩ := ih hrest changed0 entries
      refine ⟨changed, entries', ?_, ?_, ?_, ?_, ?_, p5⟩
      · simp only [setStringValues]
        rw [if_neg hne]
        exact hrun
      · intro k v hk
        rw [GoMap_lookup_cons] at hk
        by_cases hkk : key = k
        · subst hkk
          simp only [if_true, Option.some.injEq] at hk
          rw [p3 key hknone, ← hk]; exact heq
        · simp only [hkk, if_false] at hk
          exact p1 k v hk
      · intro k v hk hv
        rw [GoMap_lookup_cons] at hk
        by_cases hkk : key = k
        · subst hkk
          exact p3 key hknone
        · simp only [hkk, if_false] at hk
          exact p2 k v hk hv
      · intro k hk
        rw [GoMap_lookup_cons] at hk
        by_cases hkk : key = k
        · simp [hkk] at hk
        · simp only [hkk, if_false] at hk
          exact p3 k hk
      · rw [p4]
        constructor
        · rintro (h | ⟨k, v, hk, hv⟩)
          · exact Or.inl h
          · have hkk : ¬ key = k := by
              intro e; subst e; rw [hknone] at hk; exact absurd hk (by simp)
            exact Or.inr ⟨k, v, by simp [GoMap_lookup_cons, hkk, hk], hv⟩
        · rintro (h | ⟨k, v, hk, hv⟩)
          · exact Or.inl h
          · rw [GoMap_lookup_cons] at hk
            by_cases hkk : key = k
            · subst hkk
              simp only [if_true, Option.some.injEq] at hk
              exact absurd (hk ▸ heq) hv
            · simp only [hkk, if_false] at hk
              exact Or.inr ⟨k, v, hk, hv⟩

/-- What the loop of `SetNodeConfigValues` does to a non-nil map, for
parameters with one entry per key. -/
theorem setConfigValues_spec (params : List (String × String))
    (hnd : (params.map Prod.fst).Nodup) (changed0 : Bool)
    (entries : List (String × ConfigAttr)) :
    ∃ changed entries',
      setConfigValues params changed0 (some entries) = some (changed, some entries') ∧
      (∀ k v, GoMap.lookup (some params) k = some v →
        GoMap.lookup (some entries') k
          = some (ConfigAttr.withValue (GoMap.lookup (some entries) k) v)) ∧
      (∀ k, GoMap.lookup (some params) k = none →
        GoMap.lookup (some entries') k = GoMap.lookup (some entries) k) ∧
      (changed = true ↔ changed0 = true ∨ ∃ k v, GoMap.lookup (some params) k = some v ∧
        ∀ config, GoMap.lookup (some entries) k = some config → config.Value ≠ v) ∧
      (changed = false → entries' = entries) := by
  induction params generalizing changed0 entries with
  | nil =>
    exact ⟨changed0, entries, rfl, by simp [GoMap_lookup_nil], fun _ _ => rfl,
      by simp [GoMap_lookup_nil], fun _ => rfl⟩
  | cons kv rest ih =>
    obtain ⟨key, value⟩ := kv
    simp only [List.map_cons, List.nodup_cons] at hnd
    obtain ⟨hkey, hrest⟩ := hnd
    have hknone : GoMap.lookup (some rest) key = none :=
      GoMap_lookup_eq_none_of_not_mem key rest hkey
    -- the two branches that store an entry are handled alike
    have stored : ∀ newEntry : ConfigAttr,
        newEntry = ConfigAttr.withValue (GoMap.lookup (some entries) key) value →
        (∀ config, GoMap.lookup (some entries) key = some config → config.Value ≠ value) →
        setConfigValues ((key, value) :: rest) changed0 (some entries)
          = setConfigValues rest true (some (storeEntry key newEntry entries)) →
        ∃ changed entries',
          setConfigValues ((key, value) :: rest) changed0 (some entries)
            = some (changed, some entries') ∧
          (∀ k v, GoMap.lookup (some ((key, value) :: rest)) k = some v →
            GoMap.lookup (some entries') k
              = some (ConfigAttr.withValue (GoMap.lookup (some entries) k) v)) ∧
          (∀ k, GoMap.lookup (some ((key, value) :: rest)) k = none →
            GoMap.lookup (some entries') k = GoMap.lookup (some entries) k) ∧
          (changed = true ↔ changed0 = true ∨
            ∃ k v, GoMap.lookup (some ((key, value) :: rest)) k = some v ∧
              ∀ config, GoMap.lookup (some entries) k = some config → config.Value ≠ v) ∧
          (changed = false → entries' = entries) := by
      intro newEntry hnew hdiff hstep
      obtain ⟨changed, entries', hrun, p1, p3, p4, _⟩ :=
        ih hrest true (storeEntry key newEntry entries)
      have hself := GoMap_lookup_storeEntry_self key newEntry entries
      have hc : changed = true := p4.mpr (Or.inl rfl)
      refine ⟨changed, entries', hstep.trans hrun, ?_, ?_, ?_, ?_⟩
      · intro k v hk
        rw [GoMap_lookup_cons] at hk
        by_cases hkk : key = k
        · subst hkk
          simp only [if_true, Option.some.injEq] at hk
          rw [p3 key hknone, hself, hnew, hk]
        · simp only [hkk, if_false] at hk
          rw [p1 k v hk,
            GoMap_lookup_storeEntry_other key k newEntry entries (fun e => hkk e.symm)]
      · intro k hk
        rw [GoMap_lookup_cons] at hk
        by_cases hkk : key = k
        · simp [hkk] at hk
        · simp only [hkk, if_false] at hk
          rw [p3 k hk]
          exact GoMap_lookup_storeEntry_other key k newEntry entries (fun e => hkk e.symm)
      · simp only [hc, true_iff]
        exact Or.inr ⟨key, value, by simp [GoMap_lookup_cons], hdiff⟩
      · intro h
        rw [hc] at h; exact absurd h (by decide)
    cases hlook : GoMap.lookup (some entries) key with
    | none =>
      refine stored { ConfigAttr.zero with Value := value } ?_ ?_ ?_
      · rw [hlook]; rfl
      · intro config h; rw [hlook] at h; exact absurd h (by simp)
      · simp only [setConfigValues, hlook, GoMap.store]
    | some config =>
      by_cases hne : config.Value ≠ value
      · refine stored { config with Value := value } ?_ ?_ ?_
        · rw [hlook]; rfl
        · intro config2 h
          rw [hlook] at h
          simp only [Option.some.injEq] at h
          rw [← h]; exact hne
        · simp only [setConfigValues, hlook, GoMap.store]
          rw [if_pos hne]
      · have heq : config.Value = value := not_not.mp hne
        obtain ⟨changed, entries', hrun, p1, p3, p4, p5⟩ := ih hrest changed0 entries
        refine ⟨changed, entries', ?_, ?_, ?_, ?_, p5⟩
        · simp only [setConfigValues, hlook]
          rw [if_neg hne]
          exact hrun
        · intro k v hk
          rw [GoMap_lookup_cons] at hk
          by_cases hkk : key = k
          · subst hkk
            simp only [if_true, Option.some.injEq] at hk
            rw [p3 key hknone, hlook, ← hk, ← heq]
            rfl
          · simp only [hkk, if_false] at hk
            exact p1 k v hk
        · intro k hk
          rw [GoMap_lookup_cons] at hk
          by_cases hkk : key = k
          · simp [hkk] at hk
          · simp only [hkk, if_false] at hk
            exact p3 k hk
        · rw [p4]
          constructor
          · rintro (h | ⟨k, v, hk, hv⟩)
            · exact Or.inl h
            · have hkk : ¬ key = k := by
                intro e; subst e; rw [hknone] at hk; exact absurd hk (by simp)
              exact Or.inr ⟨k, v, by simp [GoMap_lookup_cons, hkk, hk], hv⟩
          · rintro (h | ⟨k, v, hk, hv⟩)
            · exact Or.inl h
            · rw [GoMap_lookup_cons] at hk
              by_cases hkk : key = k
              · subst hkk
                simp only [if_true, Option.some.injEq] at hk
                exact absurd (hk ▸ heq) (hv config hlook)
              · simp only [hkk, if_false] at hk
                exact Or.inr ⟨k, v, hk, hv⟩

theorem GoMap_lookup_entries {V : Type} (m : GoMap V) (k : String) :
    GoMap.lookup (some m.entries) k = m.lookup k := by
  cases m <;> rfl

theorem setStringValues_contract (params : GoMap String) (hp : params.KeysUnique)
    (entries : List (String × String)) :
    ∃ changed entries',
      setStringValues params.entries false (some entries) = some (changed, some entries') ∧
      SetValuesContract params (some entries) (some entries') changed := by
  obtain ⟨changed, entries', hrun, p1, p2, p3, p4, p5⟩ :=
    setStringValues_spec params.entries hp false entries
  simp only [GoMap_lookup_entries] at p1 p2 p3 p4
  refine ⟨changed, entries', hrun, by simp, ?_, p1, p3, ?_, ?_⟩
  · rw [p4]
    constructor
    · rintro (h | ⟨k, v, hk, hv⟩)
      · exact absurd h (by decide)
      · refine ⟨k, fun e => hv ?_⟩
        rw [← e]; exact p1 k v hk
    · rintro ⟨k, hk⟩
      refine Or.inr ?_
      cases hpk : params.lookup k with
      | none => exact absurd (p3 k hpk) hk
      | some v =>
        exact ⟨k, v, hpk, fun e => hk (p2 k v hpk e)⟩
  · intro k hk hb
    rw [p2 k "" hk (by rw [hb]; rfl), hb]
  · intro h
    rw [p5 h]

/-- C14: on a node whose Attr map is not nil, `SetNodeAttr params` returns,
and the flag it returns is true exactly when the Attr map afterwards differs
from the one before; afterwards every key of `params` reads its requested
value (a missing entry reads as ""), the other keys read as before, and a key
without entry whose requested value is "" is not added.  No other field of the
node changes.  `SetNodeStatus` does the same on the Status map. -/
theorem SetNodeAttr_SetNodeStatus_spec (node : Node) (params : GoMap String)
    (hp : params.KeysUnique) :
    (node.Attr ≠ none → ∃ changed attr,
      node.SetNodeAttr params = some (changed, { node with Attr := attr }) ∧
      SetValuesContract params node.Attr attr changed) ∧
    (node.Status ≠ none → ∃ changed status,
      node.SetNodeStatus params = some (changed, { node with Status := status }) ∧
      SetValuesContract params node.Status status changed) := by
  constructor
  · intro h
    cases hattr : node.Attr with
    | none => exact absurd hattr h
    | some entries =>
      obtain ⟨changed, entries', hrun, hc⟩ := setStringValues_contract params hp entries
      exact ⟨changed, some entries', by simp only [Node.SetNodeAttr, hattr, hrun], hc⟩
  · intro h
    cases hstatus : node.Status with
    | none => exact absurd hstatus h
    | some entries =>
      obtain ⟨changed, entries', hrun, hc⟩ := setStringValues_contract params hp entries
      exact ⟨changed, some entries', by simp only [Node.SetNodeStatus, hstatus, hrun], hc⟩

/-- Witness for C14 on the example node and parameters. -/
theorem SetNodeAttr_SetNodeStatus_spec_witness :
    exampleParams.KeysUnique ∧ exampleNode.Attr ≠ none ∧
    ∃ changed attr,
      exampleNode.SetNodeAttr exampleParams = some (changed, { exampleNode with Attr := attr }) ∧
      SetValuesContract exampleParams exampleNode.Attr attr changed :=
  ⟨by decide, by decide,
   (SetNodeAttr_SetNodeStatus_spec exampleNode exampleParams (by decide)).1 (by decide)⟩

/-- On the example node `SetNodeAttr` adds the two keys with a value and not the
key whose requested value is empty; the same call again changes nothing; and
on a nil Attr map the first write panics. -/
theorem SetNodeAttr_examples :
    exampleNode.SetNodeAttr exampleParams
      = some (true, { exampleNode with Attr := some [("name", "kitchen"), ("alias", "k1")] }) ∧
    ({ exampleNode with Attr := some [("name", "kitchen"), ("alias", "k1")] } :
        Node).SetNodeAttr exampleParams
      = some (false, { exampleNode with Attr := some [("name", "kitchen"), ("alias", "k1")] }) ∧
    ({ exampleNode with Attr := none } : Node).SetNodeAttr exampleParams = none := by
  decide

/-- C12: on a node whose Status map is not nil, `SetErrorState m` returns; the
node afterwards has the error run state and reads `m` under the last-error
key (a missing entry reads as ""), its other Status keys and all other fields
are as before, and the flag is true exactly when the run state was not the
error state already or the last-error status read before differed from `m`. -/
theorem SetErrorState_spec (lastError errorState : String) (node : Node) (message : String)
    (hs : node.Status ≠ none) :
    ∃ changed status,
      node.SetErrorState lastError errorState message
        = some (changed, { node with Status := status, RunState := errorState }) ∧
      status ≠ none ∧
      (status.lookup lastError).getD "" = message ∧
      (∀ k, k ≠ lastError → status.lookup k = node.Status.lookup k) ∧
      (changed = true ↔
        node.RunState ≠ errorState ∨ (node.Status.lookup lastError).getD "" ≠ message) := by
  cases hstatus : node.Status with
  | none => exact absurd hstatus hs
  | some entries =>
    have hp : GoMap.KeysUnique (some [(lastError, message)]) := by
      simp [GoMap.KeysUnique, GoMap.entries]
    obtain ⟨changed, entries', hrun, p1, p2, p3, p4, p5⟩ :=
      setStringValues_spec [(lastError, message)] hp false entries
    have hset : node.SetNodeStatus (some [(lastError, message)])
        = some (changed, { node with Status := some entries' }) := by
      simp only [Node.SetNodeStatus, hstatus, GoMap.entries, hrun]
    have hread : (GoMap.lookup (some entries') lastError).getD "" = message :=
      p1 lastError message (by simp [GoMap_lookup_cons])
    have hother : ∀ k, k ≠ lastError →
        GoMap.lookup (some entries') k = GoMap.lookup (some entries) k := by
      intro k hk
      exact p3 k (by
        have : ¬ lastError = k := fun e => hk e.symm
        simp [GoMap_lookup_cons, this, GoMap_lookup_nil])
    have hflag : changed = true ↔ (GoMap.lookup (some entries) lastError).getD "" ≠ message := by
      rw [p4]
      constructor
      · rintro (h | ⟨k, v, hk, hv⟩)
        · exact absurd h (by decide)
        · rw [GoMap_lookup_cons] at hk
          by_cases hkk : lastError = k
          · subst hkk
            simp only [if_true, Option.some.injEq] at hk
            rw [hk]; exact hv
          · simp [hkk, GoMap_lookup_nil] at hk
      · intro h
        exact Or.inr ⟨lastError, message, by simp [GoMap_lookup_cons], h⟩
    by_cases hrs : node.RunState ≠ errorState
    · refine ⟨true, some entries', ?_, by simp, hread, hother, by simp [hrs]⟩
      simp only [Node.SetErrorState, hset]
      rw [if_pos hrs]
    · have hrs2 : node.RunState = errorState := not_not.mp hrs
      refine ⟨changed, some entries', ?_, by simp, hread, hother, ?_⟩
      · simp only [Node.SetErrorState, hset]
        rw [if_neg hrs]
        cases node
        simp only at hrs2
        simp [hrs2]
      · rw [hflag]; simp [hrs2]

/-- Witness for C12 on the example node. -/
theorem SetErrorState_spec_witness :
    exampleNode.Status ≠ none ∧
    ∃ changed status,
      exampleNode.SetErrorState "lastError" "error" "boom"
        = some (changed, { exampleNode with Status := status, RunState := "error" }) ∧
      status ≠ none ∧
      (status.lookup "lastError").getD "" = "boom" ∧
      (∀ k, k ≠ "lastError" → status.lookup k = exampleNode.Status.lookup k) ∧
      (changed = true ↔
        exampleNode.RunState ≠ "error" ∨
          (exampleNode.Status.lookup "lastError").getD "" ≠ "boom") :=
  ⟨by decide, SetErrorState_spec "lastError" "error" exampleNode "boom" (by decide)⟩

theorem ConfigAttr_withValue_ne (old : Option ConfigAttr) (v : String) :
    some (ConfigAttr.withValue old v) ≠ old ↔ ∀ config, old = some config → config.Value ≠ v := by
  cases old with
  | none => simp
  | some config =>
    obtain ⟨i, d, ds, df, val⟩ := config
    simp [ConfigAttr.withValue]
    constructor
    · intro h e; exact h e.symm
    · intro h e; exact h e.symm

/-- C11: on a node whose Config map is not nil, `SetNodeConfigValues params`
returns; afterwards the entry of every key of `params` is the old entry with
only `Value` replaced by the requested value, or `ConfigAttr{Value: v}` when
the key had no entry; other keys and all other fields of the node are as
before; the flag is true exactly when the Config map afterwards differs from
the one before; and the same call made again returns false. -/
theorem SetNodeConfigValues_spec (node : Node) (params : GoMap String)
    (hc : node.Config ≠ none) (hp : params.KeysUnique) :
    ∃ changed config,
      node.SetNodeConfigValues params = some (changed, { node with Config := config }) ∧
      config ≠ none ∧
      (∀ k v, params.lookup k = some v →
        config.lookup k = some (ConfigAttr.withValue (node.Config.lookup k) v)) ∧
      (∀ k, params.lookup k = none → config.lookup k = node.Config.lookup k) ∧
      (changed = true ↔ ∃ k, config.lookup k ≠ node.Config.lookup k) ∧
      ({ node with Config := config } : Node).SetNodeConfigValues params
        = some (false, { node with Config := config }) := by
  cases hcfg : node.Config with
  | none => exact absurd hcfg hc
  | some entries =>
    obtain ⟨changed, entries', hrun, p1, p3, p4, _⟩ :=
      setConfigValues_spec params.entries hp false entries
    obtain ⟨changed2, entries2, hrun2, q1, _, q4, q5⟩ :=
      setConfigValues_spec params.entries hp false entries'
    simp only [GoMap_lookup_entries] at p1 p3 p4 q1 q4
    have hc2 : changed2 = false := by
      cases h2 : changed2 with
      | false => rfl
      | true =>
        rcases q4.mp h2 with h | ⟨k, v, hk, hv⟩
        · exact absurd h (by decide)
        · have := hv _ (p1 k v hk)
          cases hold : GoMap.lookup (some entries) k <;>
            simp [hold, ConfigAttr.withValue] at this
    refine ⟨changed, some entries', ?_, by simp, p1, p3, ?_, ?_⟩
    · simp only [Node.SetNodeConfigValues, hcfg, hrun]
    · rw [p4]
      constructor
      · rintro (h | ⟨k, v, hk, hv⟩)
        · exact absurd h (by decide)
        · refine ⟨k, ?_⟩
          rw [p1 k v hk]
          exact (ConfigAttr_withValue_ne _ v).mpr hv
      · rintro ⟨k, hk⟩
        refine Or.inr ?_
        cases hpk : params.lookup k with
        | none => exact absurd (p3 k hpk) hk
        | some v =>
          rw [p1 k v hpk] at hk
          exact ⟨k, v, hpk, (ConfigAttr_withValue_ne _ v).mp hk⟩
    · simp only [Node.SetNodeConfigValues, hrun2]
      rw [hc2, q5 hc2]

/-- Witness for C11 on the example node and parameters. -/
theorem SetNodeConfigValues_spec_witness :
    exampleNode.Config ≠ none ∧ exampleParams.KeysUnique ∧
    ∃ changed config,
      exampleNode.SetNodeConfigValues exampleParams
        = some (changed, { exampleNode with Config := config }) ∧
      config ≠ none ∧
      (∀ k v, exampleParams.lookup k = some v →
        config.lookup k = some (ConfigAttr.withValue (exampleNode.Config.lookup k) v)) ∧
      (∀ k, exampleParams.lookup k = none → config.lookup k = exampleNode.Config.lookup k) ∧
      (changed = true ↔ ∃ k, config.lookup k ≠ exampleNode.Config.lookup k) ∧
      ({ exampleNode with Config := config } : Node).SetNodeConfigValues exampleParams
        = some (false, { exampleNode with Config := config }) :=
  ⟨by decide, by decide,
   SetNodeConfigValues_spec exampleNode exampleParams (by decide) (by decide)⟩

/-! ## Clone and the maps in memory -/

theorem storeEntry_of_not_mem {V : Type} (k : String) (v : V) (l : List (String × V))
    (h : k ∉ l.map Prod.fst) : storeEntry k v l = l ++ [(k, v)] := by
  induction l with
  | nil => rfl
  | cons kv rest ih =>
    obtain ⟨k', v'⟩ := kv
    simp only [List.map_cons, List.mem_cons, not_or] at h
    have h2 : ¬ k' = k := fun e => h.1 e.symm
    simp [storeEntry, h2, ih h.2]

theorem foldl_storeEntry_append {V : Type} (l acc : List (String × V))
    (hnd : (l.map Prod.fst).Nodup) (hdis : ∀ k ∈ l.map Prod.fst, k ∉ acc.map Prod.fst) :
    l.foldl (fun dst kv => storeEntry kv.1 kv.2 dst) acc = acc ++ l := by
  induction l generalizing acc with
  | nil => simp
  | cons kv rest ih =>
    obtain ⟨k, v⟩ := kv
    simp only [List.map_cons, List.nodup_cons] at hnd
    simp only [List.foldl_cons]
    rw [storeEntry_of_not_mem k v acc (hdis k (by simp)), ih _ hnd.2]
    · simp
    · intro k' hk' hmem
      simp only [List.map_append, List.map_cons, List.map_nil, List.mem_append,
        List.mem_singleton] at hmem
      rcases hmem with hmem | hmem
      · exact hdis k' (by simp [hk']) hmem
      · exact hnd.1 (hmem ▸ hk')

theorem copyMap_of_keysUnique {V : Type} (m : GoMap V) (h : m.KeysUnique) :
    copyMap m = m.entries := by
  unfold copyMap
  rw [foldl_storeEntry_append m.entries [] h (by simp)]
  simp

theorem derefMap_append_old {V : Type} (maps : List (List (String × V)))
    (x : List (String × V)) (ref : Option Nat) (h : ∀ r, ref = some r → r < maps.length) :
    derefMap (maps ++ [x]) ref = derefMap maps ref := by
  cases ref with
  | none => rfl
  | some r =>
    simp only [derefMap]
    exact List.getElem?_append_left (h r rfl)

theorem derefMap_append_new {V : Type} (maps : List (List (String × V)))
    (x : List (String × V)) : derefMap (maps ++ [x]) (some maps.length) = some x := by
  simp [derefMap]

theorem derefMap_writeMap_other {V : Type} (maps : List (List (String × V)))
    (ref ref' : Option Nat) (m : GoMap V) (h : ∀ r, ref = some r → ref' ≠ some r) :
    derefMap (writeMap maps ref m) ref' = derefMap maps ref' := by
  cases ref with
  | none => rfl
  | some r =>
    cases m with
    | none => rfl
    | some entries =>
      cases ref' with
      | none => rfl
      | some r' =>
        have hne : r ≠ r' := fun e => h r rfl (by rw [e])
        simp only [derefMap, writeMap]
        exact List.getElem?_set_ne hne

theorem derefMap_writeMap_self {V : Type} (maps : List (List (String × V)))
    (ref : Option Nat) (m : GoMap V) (hin : ∀ r, ref = some r → r < maps.length)
    (hnil : m = none ↔ ref = none) :
    derefMap (writeMap maps ref m) ref = m := by
  cases ref with
  | none => simp [derefMap, hnil.mpr rfl]
  | some r =>
    cases m with
    | none => simp at hnil
    | some entries =>
      simp only [derefMap, writeMap]
      simp [List.getElem?_set, hin r rfl]

theorem setStringValues_some (params : List (String × String)) (changed0 : Bool)
    (entries : List (String × String)) :
    ∃ changed entries',
      setStringValues params changed0 (some entries) = some (changed, some entries') := by
  induction params generalizing changed0 entries with
  | nil => exact ⟨changed0, entries, rfl⟩
  | cons kv rest ih =>
    obtain ⟨key, value⟩ := kv
    by_cases hne : (GoMap.lookup (some entries) key).getD "" ≠ value
    · obtain ⟨c, e, hrun⟩ := ih true (storeEntry key value entries)
      refine ⟨c, e, ?_⟩
      simp only [setStringValues, GoMap.store]
      rw [if_pos hne]; exact hrun
    · obtain ⟨c, e, hrun⟩ := ih changed0 entries
      refine ⟨c, e, ?_⟩
      simp only [setStringValues]
      rw [if_neg hne]; exact hrun

theorem setConfigValues_some (params : List (String × String)) (changed0 : Bool)
    (entries : List (String × ConfigAttr)) :
    ∃ changed entries',
      setConfigValues params changed0 (some entries) = some (changed, some entries') := by
  induction params generalizing changed0 entries with
  | nil => exact ⟨changed0, entries, rfl⟩
  | cons kv rest ih =>
    obtain ⟨key, value⟩ := kv
    cases hlook : GoMap.lookup (some entries) key with
    | none =>
      obtain ⟨c, e, hrun⟩ := ih true (storeEntry key { ConfigAttr.zero with Value := value } entries)
      exact ⟨c, e, by simp only [setConfigValues, hlook, GoMap.store]; exact hrun⟩
    | some config =>
      by_cases hne : config.Value ≠ value
      · obtain ⟨c, e, hrun⟩ := ih true (storeEntry key { config with Value := value } entries)
        refine ⟨c, e, ?_⟩
        simp only [setConfigValues, hlook, GoMap.store]
        rw [if_pos hne]; exact hrun
      · obtain ⟨c, e, hrun⟩ := ih changed0 entries
        refine ⟨c, e, ?_⟩
        simp only [setConfigValues, hlook]
        rw [if_neg hne]; exact hrun

/-- A method run on one struct leaves the view of a struct that shares no map
object with it as it was. -/
theorem call_keeps_other_view (h : MapHeap) (c n : NodeStruct)
    (method : Node → Option (Bool × Node)) (changed : Bool) (c1 : NodeStruct) (h1 : MapHeap)
    (hcall : h.call c method = some (changed, c1, h1))
    (hattr : ∀ r, c.Attr = some r → n.Attr ≠ some r)
    (hconfig : ∀ r, c.Config = some r → n.Config ≠ some r)
    (hstatus : ∀ r, c.Status = some r → n.Status ≠ some r) :
    h1.view n = h.view n := by
  unfold MapHeap.call at hcall
  cases hm : method (h.view c) with
  | none => simp [hm] at hcall
  | some res =>
    obtain ⟨ch, node1⟩ := res
    simp only [hm, Option.some.injEq, Prod.mk.injEq] at hcall
    obtain ⟨_, _, hh⟩ := hcall
    subst hh
    simp only [MapHeap.view, derefMap_writeMap_other _ _ _ _ hattr,
      derefMap_writeMap_other _ _ _ _ hconfig, derefMap_writeMap_other _ _ _ _ hstatus]

/-- A method run on a struct in memory shows its result in the view of that
struct, when it leaves nil maps nil and others not nil. -/
theorem call_view_self (h : MapHeap) (c : NodeStruct) (hc : h.Holds c)
    (method : Node → Option (Bool × Node)) (changed : Bool) (node1 : Node)
    (hm : method (h.view c) = some (changed, node1))
    (hattr : node1.Attr = none ↔ c.Attr = none)
    (hconfig : node1.Config = none ↔ c.Config = none)
    (hstatus : node1.Status = none ↔ c.Status = none) :
    ∃ c1 h1, h.call c method = some (changed, c1, h1) ∧ h1.view c1 = node1 := by
  refine ⟨{ c with Address := node1.Address, ID := node1.ID,
                    PublisherID := node1.PublisherID, RunState := node1.RunState,
                    NodeType := node1.NodeType, Zone := node1.Zone },
    { attrMaps := writeMap h.attrMaps c.Attr node1.Attr
      configMaps := writeMap h.configMaps c.Config node1.Config
      statusMaps := writeMap h.statusMaps c.Status node1.Status },
    by simp only [MapHeap.call, hm], ?_⟩
  obtain ⟨h1, h2, h3⟩ := hc
  simp only [MapHeap.view, derefMap_writeMap_self _ _ _ h1 hattr,
    derefMap_writeMap_self _ _ _ h2 hconfig, derefMap_writeMap_self _ _ _ h3 hstatus]

theorem Clone_fst (h : MapHeap) (n : NodeStruct) :
    (h.Clone n).1 = { n with Attr := some h.attrMaps.length
                             Config := some h.configMaps.length
                             Status := some h.statusMaps.length } := rfl

theorem Clone_snd (h : MapHeap) (n : NodeStruct) :
    (h.Clone n).2 = { attrMaps := h.attrMaps ++ [copyMap (derefMap h.attrMaps n.Attr)]
                      configMaps := h.configMaps ++ [copyMap (derefMap h.configMaps n.Config)]
                      statusMaps := h.statusMaps ++ [copyMap (derefMap h.statusMaps n.Status)] } :=
  rfl

theorem Clone_holds (h : MapHeap) (n : NodeStruct) : (h.Clone n).2.Holds (h.Clone n).1 := by
  rw [Clone_fst, Clone_snd]
  refine ⟨?_, ?_, ?_⟩ <;>
  · intro r hr
    simp only [Option.some.injEq] at hr
    simp [← hr]

theorem Clone_view_old (h : MapHeap) (n : NodeStruct) (hn : h.Holds n) :
    (h.Clone n).2.view n = h.view n := by
  obtain ⟨h1, h2, h3⟩ := hn
  rw [Clone_snd]
  simp only [MapHeap.view, derefMap_append_old _ _ _ h1, derefMap_append_old _ _ _ h2,
    derefMap_append_old _ _ _ h3]

theorem Clone_view_new (h : MapHeap) (n : NodeStruct) :
    (h.Clone n).2.view (h.Clone n).1
      = { h.view n with Attr := some (copyMap (h.view n).Attr)
                        Config := some (copyMap (h.view n).Config)
                        Status := some (copyMap (h.view n).Status) } := by
  rw [Clone_fst, Clone_snd]
  simp only [MapHeap.view, derefMap_append_new]

/-- A method run on the clone of `n` that keeps the maps of the clone in
place leaves `n` alone. -/
theorem Clone_leavesAlone (h : MapHeap) (n : NodeStruct) (hn : h.Holds n)
    (method : Node → Option (Bool × Node))
    (hm : ∃ changed node1, method ((h.Clone n).2.view (h.Clone n).1) = some (changed, node1) ∧
      node1.Attr ≠ none ∧ node1.Config ≠ none ∧ node1.Status ≠ none) :
    LeavesAlone h n (h.Clone n).2 (h.Clone n).1 method := by
  obtain ⟨changed, node1, hrun, ha, hc, hs⟩ := hm
  obtain ⟨c1, h1, hcall, hview⟩ := call_view_self (h.Clone n).2 (h.Clone n).1 (Clone_holds h n)
    method changed node1 hrun (by simp [Clone_fst, ha]) (by simp [Clone_fst, hc])
    (by simp [Clone_fst, hs])
  obtain ⟨n1, n2, n3⟩ := hn
  refine ⟨changed, node1, c1, h1, hrun, hcall, hview, ?_⟩
  rw [call_keeps_other_view (h.Clone n).2 (h.Clone n).1 n method changed c1 h1 hcall ?_ ?_ ?_]
  · exact Clone_view_old h n ⟨n1, n2, n3⟩
  · intro r hr hnr
    rw [Clone_fst] at hr
    simp only [Option.some.injEq] at hr
    have := n1 r hnr
    omega
  · intro r hr hnr
    rw [Clone_fst] at hr
    simp only [Option.some.injEq] at hr
    have := n2 r hnr
    omega
  · intro r hr hnr
    rw [Clone_fst] at hr
    simp only [Option.some.injEq] at hr
    have := n3 r hnr
    omega

theorem SetNodeAttr_some (node : Node) (entries : List (String × String))
    (h : node.Attr = some entries) (params : GoMap String) :
    ∃ changed e, node.SetNodeAttr params = some (changed, { node with Attr := some e }) := by
  obtain ⟨changed, e, hrun⟩ := setStringValues_some params.entries false entries
  exact ⟨changed, e, by simp only [Node.SetNodeAttr, h, hrun]⟩

theorem SetNodeStatus_some (node : Node) (entries : List (String × String))
    (h : node.Status = some entries) (params : GoMap String) :
    ∃ changed e, node.SetNodeStatus params = some (changed, { node with Status := some e }) := by
  obtain ⟨changed, e, hrun⟩ := setStringValues_some params.entries false entries
  exact ⟨changed, e, by simp only [Node.SetNodeStatus, h, hrun]⟩

theorem SetNodeConfigValues_some (node : Node) (entries : List (String × ConfigAttr))
    (h : node.Config = some entries) (params : GoMap String) :
    ∃ changed e,
      node.SetNodeConfigValues params = some (changed, { node with Config := some e }) := by
  obtain ⟨changed, e, hrun⟩ := setConfigValues_some params.entries false entries
  exact ⟨changed, e, by simp only [Node.SetNodeConfigValues, h, hrun]⟩

/-- C13: `Clone` returns a struct whose scalar fields are those of `n` and
whose Attr, Config and Status maps hold the entries of the maps of `n` (a nil
map becomes an empty one); `n` shows after `Clone` what it showed before; and
`SetNodeAttr`, `SetNodeConfigValues` and `SetNodeStatus` on the clone return,
take effect on the clone and leave what `n` shows as it was. -/
theorem Clone_spec (h : MapHeap) (n : NodeStruct) (hn : h.Holds n)
    (ha : (h.view n).Attr.KeysUnique) (hc : (h.view n).Config.KeysUnique)
    (hs : (h.view n).Status.KeysUnique) :
    (h.Clone n).2.view (h.Clone n).1
      = { h.view n with Attr := some (h.view n).Attr.entries
                        Config := some (h.view n).Config.entries
                        Status := some (h.view n).Status.entries } ∧
    (h.Clone n).2.view n = h.view n ∧
    (∀ params, LeavesAlone h n (h.Clone n).2 (h.Clone n).1 (fun x => x.SetNodeAttr params)) ∧
    (∀ params,
      LeavesAlone h n (h.Clone n).2 (h.Clone n).1 (fun x => x.SetNodeConfigValues params)) ∧
    (∀ params, LeavesAlone h n (h.Clone n).2 (h.Clone n).1 (fun x => x.SetNodeStatus params)) := by
  have hnew := Clone_view_new h n
  rw [copyMap_of_keysUnique _ ha, copyMap_of_keysUnique _ hc, copyMap_of_keysUnique _ hs] at hnew
  refine ⟨hnew, Clone_view_old h n hn, ?_, ?_, ?_⟩
  · intro params
    apply Clone_leavesAlone h n hn
    obtain ⟨changed, e, hrun⟩ := SetNodeAttr_some ((h.Clone n).2.view (h.Clone n).1)
      (h.view n).Attr.entries (by rw [hnew]) params
    exact ⟨changed, _, hrun, by simp, by simp [hnew], by simp [hnew]⟩
  · intro params
    apply Clone_leavesAlone h n hn
    obtain ⟨changed, e, hrun⟩ := SetNodeConfigValues_some ((h.Clone n).2.view (h.Clone n).1)
      (h.view n).Config.entries (by rw [hnew]) params
    exact ⟨changed, _, hrun, by simp [hnew], by simp, by simp [hnew]⟩
  · intro params
    apply Clone_leavesAlone h n hn
    obtain ⟨changed, e, hrun⟩ := SetNodeStatus_some ((h.Clone n).2.view (h.Clone n).1)
      (h.view n).Status.entries (by rw [hnew]) params
    exact ⟨changed, _, hrun, by simp [hnew], by simp [hnew], by simp⟩

/-- The example struct points into the example heap. -/
theorem exampleHeap_holds : exampleHeap.Holds exampleStruct := by
  refine ⟨?_, ?_, ?_⟩ <;> intro r hr <;> simp [exampleStruct] at hr <;>
    simp [exampleHeap, ← hr]

/-- Witness for C13: the example struct, whose Config map is nil, and a
`SetNodeConfigValues` on its clone. -/
theorem Clone_spec_witness :
    (exampleHeap.view exampleStruct).Attr.KeysUnique ∧
    (exampleHeap.Clone exampleStruct).2.view exampleStruct = exampleHeap.view exampleStruct ∧
    LeavesAlone exampleHeap exampleStruct (exampleHeap.Clone exampleStruct).2
      (exampleHeap.Clone exampleStruct).1 (fun x => x.SetNodeConfigValues exampleParams) :=
  ⟨by decide,
   (Clone_spec exampleHeap exampleStruct exampleHeap_holds
      (by decide) (by decide) (by decide)).2.1,
   (Clone_spec exampleHeap exampleStruct exampleHeap_holds
      (by decide) (by decide) (by decide)).2.2.2.1 exampleParams⟩

end MyZone
